import Mathlib

/-!
Verification development for `src/chocofi-vial/zmk_to_vial.py` (ZMK to Vial
keymap converter).  The Python source is shallowly embedded: texts are
`List Char`, Python `re` patterns are modelled by hand-written scanners whose
behaviour matches the concrete patterns appearing in the source (leftmost
scanning, greedy/lazy repetition with backtracking, as analysed per pattern),
and the mutable parser state (tap-dance accumulator) is threaded explicitly.

Python character classes are modelled on the character ranges exercised by the
repository's inputs: the regex class `\w` is modelled as ASCII alphanumerics
plus underscore, `\s` as ASCII whitespace, `\d` as ASCII decimal digits.
`str.isdigit` is modelled on ASCII digits plus the superscript digits
U+00B9/U+00B2/U+00B3 (for which Python's `int` raises `ValueError` even though
`isdigit` is true).
-/

namespace ZmkVial

instance {ε α : Type} [DecidableEq ε] [DecidableEq α] : DecidableEq (Except ε α) := fun x y => by
  cases x <;> cases y
  case error.error a b =>
    exact if h : a = b then isTrue (by rw [h]) else isFalse (fun hc => h (by injection hc))
  case ok.ok a b =>
    exact if h : a = b then isTrue (by rw [h]) else isFalse (fun hc => h (by injection hc))
  case error.ok a b => exact isFalse (fun hc => by injection hc)
  case ok.error a b => exact isFalse (fun hc => by injection hc)

/-- Model of the Python regex class `\w` (ASCII range). -/
def pyWordChar (c : Char) : Bool := c.isAlphanum || c = '_'

/-- Model of the Python regex class `\s` (ASCII range). -/
def pySpaceChar (c : Char) : Bool :=
  c = ' ' || c = '\t' || c = '\n' || c = '\r' || c = '\x0b' || c = '\x0c'

/-- Model of the Python regex class `\d` (ASCII range). -/
def pyDigitChar (c : Char) : Bool := c.isDigit

/-- Model of Python `str.isdigit` on a single character: true for ASCII
decimal digits and also for the Unicode superscript digits, which have
Numeric_Type=Digit but are rejected by `int`. -/
def pyIsDigitChar (c : Char) : Bool := c.isDigit || c = '¹' || c = '²' || c = '³'

/-- Model of Python `str.isdigit` for a whole token (true on nonempty strings
of digit-class characters). -/
def pyStrIsDigit (s : List Char) : Bool := !s.isEmpty && s.all pyIsDigitChar

/-- Numeric value of a list of ASCII decimal digits. -/
def natOfDigits (ds : List Char) : Nat := ds.foldl (fun n c => n * 10 + (c.toNat - 48)) 0

/-- Model of Python `int(p)` for the tokens that reach it in this program
(`p` has passed `str.isdigit`, so it is nonempty and digit-class): `int`
succeeds exactly on decimal digits and raises `ValueError` on the
superscript digits. -/
def pyInt (s : List Char) : Option Nat :=
  if s.all (fun c => c.isDigit) then some (natOfDigits s) else none

/-- Helper building a `(key, value)` pair of character lists from string
literals, used to transcribe the Python dict literals verbatim. -/
def kv (a b : String) : List Char × List Char := (a.data, b.data)

/-- Lookup in a transcribed Python dict literal.  Python dict literals with a
duplicated key keep the LAST binding, so lookup searches from the end. -/
def dictGet (d : List (List Char × List Char)) (k : List Char) : Option (List Char) :=
  (d.reverse.find? (fun p => p.1 = k)).map (fun p => p.2)

/-- Transcription of the `ZMK_TO_QMK` dict literal (source lines 25-142), in
source order.  Note the source repeats the keys `LBRC` and `RBRC`; as in
Python, the later binding wins (see `dictGet`). -/
def ZMK_TO_QMK : List (List Char × List Char) := [
  kv "A" "KC_A", kv "B" "KC_B", kv "C" "KC_C", kv "D" "KC_D", kv "E" "KC_E",
  kv "F" "KC_F", kv "G" "KC_G", kv "H" "KC_H", kv "I" "KC_I", kv "J" "KC_J",
  kv "K" "KC_K", kv "L" "KC_L", kv "M" "KC_M", kv "N" "KC_N", kv "O" "KC_O",
  kv "P" "KC_P", kv "Q" "KC_Q", kv "R" "KC_R", kv "S" "KC_S", kv "T" "KC_T",
  kv "U" "KC_U", kv "V" "KC_V", kv "W" "KC_W", kv "X" "KC_X", kv "Y" "KC_Y",
  kv "Z" "KC_Z",
  kv "N0" "KC_0", kv "N1" "KC_1", kv "N2" "KC_2", kv "N3" "KC_3", kv "N4" "KC_4",
  kv "N5" "KC_5", kv "N6" "KC_6", kv "N7" "KC_7", kv "N8" "KC_8", kv "N9" "KC_9",
  kv "NUMBER_0" "KC_0", kv "NUMBER_1" "KC_1", kv "NUMBER_2" "KC_2",
  kv "NUMBER_3" "KC_3", kv "NUMBER_4" "KC_4", kv "NUMBER_5" "KC_5",
  kv "NUMBER_6" "KC_6", kv "NUMBER_7" "KC_7", kv "NUMBER_8" "KC_8",
  kv "NUMBER_9" "KC_9",
  kv "F1" "KC_F1", kv "F2" "KC_F2", kv "F3" "KC_F3", kv "F4" "KC_F4",
  kv "F5" "KC_F5", kv "F6" "KC_F6", kv "F7" "KC_F7", kv "F8" "KC_F8",
  kv "F9" "KC_F9", kv "F10" "KC_F10", kv "F11" "KC_F11", kv "F12" "KC_F12",
  kv "LEFT_CONTROL" "KC_LCTRL", kv "LCTRL" "KC_LCTRL", kv "LEFT_CTRL" "KC_LCTRL",
  kv "RIGHT_CONTROL" "KC_RCTRL", kv "RCTRL" "KC_RCTRL", kv "RIGHT_CTRL" "KC_RCTRL",
  kv "LEFT_SHIFT" "KC_LSHIFT", kv "LSHIFT" "KC_LSHIFT", kv "LSHFT" "KC_LSHIFT",
  kv "RIGHT_SHIFT" "KC_RSHIFT", kv "RSHIFT" "KC_RSHIFT", kv "RSHFT" "KC_RSHIFT",
  kv "LEFT_ALT" "KC_LALT", kv "LALT" "KC_LALT",
  kv "RIGHT_ALT" "KC_RALT", kv "RALT" "KC_RALT",
  kv "LEFT_GUI" "KC_LGUI", kv "LGUI" "KC_LGUI", kv "LEFT_WIN" "KC_LGUI", kv "LWIN" "KC_LGUI",
  kv "RIGHT_GUI" "KC_RGUI", kv "RGUI" "KC_RGUI", kv "RIGHT_WIN" "KC_RGUI", kv "RWIN" "KC_RGUI",
  kv "UP" "KC_UP", kv "DOWN" "KC_DOWN", kv "LEFT" "KC_LEFT", kv "RIGHT" "KC_RIGHT",
  kv "HOME" "KC_HOME", kv "END" "KC_END",
  kv "PAGE_UP" "KC_PGUP", kv "PG_UP" "KC_PGUP", kv "PGUP" "KC_PGUP",
  kv "PAGE_DOWN" "KC_PGDN", kv "PG_DN" "KC_PGDN", kv "PGDN" "KC_PGDN",
  kv "BACKSPACE" "KC_BSPACE", kv "BSPC" "KC_BSPACE", kv "BKSP" "KC_BSPACE",
  kv "DELETE" "KC_DELETE", kv "DEL" "KC_DELETE",
  kv "INSERT" "KC_INSERT", kv "INS" "KC_INSERT",
  kv "ENTER" "KC_ENTER", kv "RETURN" "KC_ENTER", kv "RET" "KC_ENTER",
  kv "TAB" "KC_TAB",
  kv "ESCAPE" "KC_ESCAPE", kv "ESC" "KC_ESCAPE",
  kv "SPACE" "KC_SPACE", kv "SPC" "KC_SPACE",
  kv "CAPSLOCK" "KC_CAPSLOCK", kv "CAPS" "KC_CAPSLOCK",
  kv "PRINTSCREEN" "KC_PSCREEN", kv "PSCRN" "KC_PSCREEN", kv "PSCR" "KC_PSCREEN",
  kv "MINUS" "KC_MINUS", kv "PLUS" "KC_KP_PLUS",
  kv "EQUAL" "KC_EQUAL", kv "EQUALS" "KC_EQUAL",
  kv "UNDERSCORE" "LSFT(KC_MINUS)", kv "UNDER" "LSFT(KC_MINUS)",
  kv "LEFT_BRACKET" "KC_LBRACKET", kv "LBKT" "KC_LBRACKET", kv "LBRC" "KC_LBRACKET",
  kv "RIGHT_BRACKET" "KC_RBRACKET", kv "RBKT" "KC_RBRACKET", kv "RBRC" "KC_RBRACKET",
  kv "LEFT_BRACE" "LSFT(KC_LBRACKET)", kv "LBRC" "LSFT(KC_LBRACKET)",
  kv "RIGHT_BRACE" "LSFT(KC_RBRACKET)", kv "RBRC" "LSFT(KC_RBRACKET)",
  kv "LEFT_PARENTHESIS" "LSFT(KC_9)", kv "LPAR" "LSFT(KC_9)",
  kv "RIGHT_PARENTHESIS" "LSFT(KC_0)", kv "RPAR" "LSFT(KC_0)",
  kv "BACKSLASH" "KC_BSLASH", kv "BSLH" "KC_BSLASH",
  kv "SLASH" "KC_SLASH", kv "FSLH" "KC_SLASH",
  kv "SEMICOLON" "KC_SCOLON", kv "SEMI" "KC_SCOLON",
  kv "COLON" "LSFT(KC_SCOLON)",
  kv "APOSTROPHE" "KC_QUOTE", kv "APOS" "KC_QUOTE", kv "SQT" "KC_QUOTE",
  kv "SINGLE_QUOTE" "KC_QUOTE",
  kv "DOUBLE_QUOTES" "LSFT(KC_QUOTE)", kv "DQT" "LSFT(KC_QUOTE)",
  kv "COMMA" "KC_COMMA",
  kv "PERIOD" "KC_DOT", kv "DOT" "KC_DOT",
  kv "GRAVE" "KC_GRAVE", kv "GRV" "KC_GRAVE",
  kv "TILDE" "LSFT(KC_GRAVE)", kv "TILD" "LSFT(KC_GRAVE)",
  kv "EXCLAMATION" "LSFT(KC_1)", kv "EXCL" "LSFT(KC_1)",
  kv "AT_SIGN" "LSFT(KC_2)", kv "AT" "LSFT(KC_2)",
  kv "HASH" "LSFT(KC_3)", kv "POUND" "LSFT(KC_3)",
  kv "DOLLAR" "LSFT(KC_4)", kv "DLLR" "LSFT(KC_4)",
  kv "PERCENT" "LSFT(KC_5)", kv "PRCNT" "LSFT(KC_5)",
  kv "CARET" "LSFT(KC_6)", kv "CRRT" "LSFT(KC_6)",
  kv "AMPERSAND" "LSFT(KC_7)", kv "AMPS" "LSFT(KC_7)",
  kv "ASTERISK" "LSFT(KC_8)", kv "ASTRK" "LSFT(KC_8)", kv "STAR" "LSFT(KC_8)",
  kv "QUESTION" "LSFT(KC_SLASH)", kv "QMARK" "LSFT(KC_SLASH)",
  kv "PIPE" "LSFT(KC_BSLASH)",
  kv "LESS_THAN" "LSFT(KC_COMMA)", kv "LT" "LSFT(KC_COMMA)",
  kv "GREATER_THAN" "LSFT(KC_DOT)", kv "GT" "LSFT(KC_DOT)",
  kv "KP_ASTERISK" "KC_KP_ASTERISK", kv "KP_MULTIPLY" "KC_KP_ASTERISK",
  kv "KP_PLUS" "KC_KP_PLUS", kv "KP_ADD" "KC_KP_PLUS",
  kv "KP_MINUS" "KC_KP_MINUS", kv "KP_SUBTRACT" "KC_KP_MINUS",
  kv "KP_SLASH" "KC_KP_SLASH", kv "KP_DIVIDE" "KC_KP_SLASH",
  kv "K_PLAY_PAUSE" "KC_MEDIA_PLAY_PAUSE", kv "C_PP" "KC_MEDIA_PLAY_PAUSE",
  kv "K_STOP" "KC_MEDIA_STOP", kv "C_STOP" "KC_MEDIA_STOP",
  kv "K_NEXT" "KC_MEDIA_NEXT_TRACK", kv "C_NEXT" "KC_MEDIA_NEXT_TRACK",
  kv "K_PREV" "KC_MEDIA_PREV_TRACK", kv "C_PREV" "KC_MEDIA_PREV_TRACK",
  kv "K_VOL_UP" "KC_AUDIO_VOL_UP", kv "C_VOL_UP" "KC_AUDIO_VOL_UP",
  kv "K_VOL_DN" "KC_AUDIO_VOL_DOWN", kv "C_VOL_DN" "KC_AUDIO_VOL_DOWN",
  kv "K_MUTE" "KC_AUDIO_MUTE", kv "C_MUTE" "KC_AUDIO_MUTE",
  kv "K_APPLICATION" "KC_APPLICATION", kv "K_APP" "KC_APPLICATION",
  kv "K_CMENU" "KC_APPLICATION",
  kv "BT_CLR" "KC_NO", kv "BT_CLR_ALL" "KC_NO",
  kv "BT_SEL" "KC_NO",
  kv "BT_PRV" "KC_NO", kv "BT_NXT" "KC_NO",
  kv "BT_DISC" "KC_NO",
  kv "OUT_TOG" "KC_NO", kv "OUT_USB" "KC_NO", kv "OUT_BLE" "KC_NO",
  kv "EP_ON" "KC_NO", kv "EP_OFF" "KC_NO", kv "EP_TOG" "KC_NO",
  kv "EXT_POWER" "KC_NO",
  kv "RGB_TOG" "KC_NO", kv "RGB_EFF" "KC_NO", kv "RGB_EFR" "KC_NO",
  kv "RGB_HUI" "KC_NO", kv "RGB_HUD" "KC_NO",
  kv "RGB_SAI" "KC_NO", kv "RGB_SAD" "KC_NO",
  kv "RGB_BRI" "KC_NO", kv "RGB_BRD" "KC_NO",
  kv "RGB_SPI" "KC_NO", kv "RGB_SPD" "KC_NO"]

/-- Transcription of the `ZMK_MOD_MAP` dict literal (source lines 145-154). -/
def ZMK_MOD_MAP : List (List Char × List Char) := [
  kv "LC" "LCTL", kv "LEFT_CONTROL" "LCTL", kv "LCTRL" "LCTL",
  kv "RC" "RCTL", kv "RIGHT_CONTROL" "RCTL", kv "RCTRL" "RCTL",
  kv "LS" "LSFT", kv "LEFT_SHIFT" "LSFT", kv "LSHIFT" "LSFT", kv "LSHFT" "LSFT",
  kv "RS" "RSFT", kv "RIGHT_SHIFT" "RSFT", kv "RSHIFT" "RSFT", kv "RSHFT" "RSFT",
  kv "LA" "LALT", kv "LEFT_ALT" "LALT",
  kv "RA" "RALT", kv "RIGHT_ALT" "RALT",
  kv "LG" "LGUI", kv "LEFT_GUI" "LGUI", kv "LWIN" "LGUI", kv "LCMD" "LGUI", kv "LMETA" "LGUI",
  kv "RG" "RGUI", kv "RIGHT_GUI" "RGUI", kv "RWIN" "RGUI", kv "RCMD" "RGUI", kv "RMETA" "RGUI"]

/-- Model of `ZMK_MOD_MAP.get(mod, mod)` (source line 516). -/
def modGet (m : List Char) : List Char := (dictGet ZMK_MOD_MAP m).getD m

/-- The `KC_NO` keycode. -/
def kcNo : List Char := "KC_NO".data

/-- Splits a list at the end of its maximal leading run of characters
satisfying `p`; models a greedy regex class repetition at the start of the
remaining input. -/
def takeRun (p : Char → Bool) (s : List Char) : List Char × List Char :=
  (s.takeWhile p, s.dropWhile p)

/-- Model of `re.match(r'(\w+)\((.+)\)$', zmk_key)` (source line 511).
Derivation from the Python semantics of that pattern: `$` matches at the end
of the string or just before one trailing newline, so the literal `\)` must
be the last character once one trailing newline is dropped; `\w+` is greedy
and backtracking cannot help it (a shorter run is followed by a word
character, never by `(` ), so the group-1 capture is the maximal leading word
run and the following character must be `(`; `.+` is greedy and cannot match
a newline, so the group-2 capture is everything between that `(` and the
final `)`, which must be nonempty and newline-free. -/
def modSplit (s : List Char) : Option (List Char × List Char) :=
  let core := if s.getLast? = some '\n' then s.dropLast else s
  if core.getLast? = some ')' then
    let w := core.takeWhile pyWordChar
    let rest := core.dropWhile pyWordChar
    if w = [] then none
    else if rest.head? = some '(' then
      let mid := rest.tail.dropLast
      if mid ≠ [] ∧ '\n' ∉ mid then some (w, mid) else none
    else none
  else none

/-- Fuel-indexed version of `ZMKParser._zmk_key_to_qmk` (source lines
507-530).  The recursion of the Python function is on the strictly shorter
inner token of a modifier form, so the wrapper `zmk_key_to_qmk` supplies
sufficient fuel and the fuel branch is never reached from it. -/
def zmkKeyToQmkF : Nat → List Char → List Char
  | 0, s => s
  | f + 1, s =>
    match modSplit s with
    | some (m, inner) => modGet m ++ '(' :: zmkKeyToQmkF f inner ++ [')']
    | none =>
      match dictGet ZMK_TO_QMK s with
      | some v => v
      | none => if "KC_".data.isPrefixOf s then s else "KC_".data ++ s

/-- Model of `ZMKParser._zmk_key_to_qmk` (source lines 507-530). -/
def zmk_key_to_qmk (s : List Char) : List Char := zmkKeyToQmkF (s.length + 1) s

/-- A successful `modSplit` yields a strictly shorter inner token, a nonempty
all-word-character modifier name, and a nonempty newline-free inner token. -/
theorem modSplit_spec {s m inner : List Char} (h : modSplit s = some (m, inner)) :
    inner.length + 2 < s.length ∧ m ≠ [] ∧ (∀ c ∈ m, pyWordChar c) ∧
      inner ≠ [] ∧ '\n' ∉ inner ∧ '(' ∈ s := by
  unfold modSplit at h
  set core := if s.getLast? = some '\n' then s.dropLast else s with hcore
  have hlen : core.length ≤ s.length := by
    rw [hcore]
    split
    · exact (List.length_dropLast s) ▸ Nat.sub_le _ _
    · exact Nat.le_refl _
  simp only at h
  split at h
  case isFalse => exact absurd h (by simp)
  case isTrue hlast =>
  split at h
  case isTrue => exact absurd h (by simp)
  case isFalse hw =>
  split at h
  case isFalse => exact absurd h (by simp)
  case isTrue hhead =>
  split at h
  case isFalse => exact absurd h (by simp)
  case isTrue hmid =>
  injection h with h'
  injection h' with h1 h2
  subst h1
  subst h2
  have hsplitc : core = core.takeWhile pyWordChar ++ core.dropWhile pyWordChar :=
    (List.takeWhile_append_dropWhile pyWordChar core).symm
  rcases hr : core.dropWhile pyWordChar with _ | ⟨r0, rest2⟩
  · rw [hr] at hhead; simp at hhead
  · have hr0 : r0 = '(' := by rw [hr] at hhead; simpa using hhead
    subst hr0
    simp only [hr, List.tail_cons] at hmid ⊢
    have hrest2 : rest2 ≠ [] := by
      intro hre
      rw [hre] at hr
      have : core.getLast? = some '(' := by
        rw [hsplitc, hr]
        simp [List.getLast?_append]
      rw [this] at hlast
      simp at hlast
    have hlenc : core.length =
        (core.takeWhile pyWordChar).length + 1 + rest2.length := by
      conv_lhs => rw [hsplitc]
      rw [hr]
      simp [List.length_append]
      ring
    have hmlen : (rest2.dropLast).length = rest2.length - 1 := List.length_dropLast rest2
    have hr2pos : 1 ≤ rest2.length := List.length_pos.mpr hrest2
    have hwpos : 1 ≤ (core.takeWhile pyWordChar).length := List.length_pos.mpr hw
    refine ⟨by omega, hw, ?_, hmid.1, hmid.2, ?_⟩
    · intro x hx
      exact List.mem_takeWhile_imp hx
    · have hmem : '(' ∈ core.dropWhile pyWordChar := by rw [hr]; simp
      have hsub1 : List.Sublist (core.dropWhile pyWordChar) core := List.dropWhile_sublist _
      have hsub2 : List.Sublist core s := by
        rw [hcore]
        split
        · exact List.dropLast_sublist s
        · exact List.Sublist.refl s
      exact hsub2.mem (hsub1.mem hmem)

/-- The fuel argument of `zmkKeyToQmkF` is irrelevant once it exceeds the
length of the token, matching the unbounded recursion of the source. -/
theorem zmkKeyToQmkF_congr :
    ∀ (n f g : Nat) (s : List Char), s.length ≤ n → s.length < f → s.length < g →
      zmkKeyToQmkF f s = zmkKeyToQmkF g s := by
  intro n
  induction n with
  | zero =>
    intro f g s hn hf hg
    cases f with
    | zero => omega
    | succ f' =>
    cases g with
    | zero => omega
    | succ g' =>
    cases hms : modSplit s with
    | some p =>
      exfalso
      obtain ⟨hlt, -⟩ := modSplit_spec (show modSplit s = some (p.1, p.2) by rw [hms])
      omega
    | none => simp [zmkKeyToQmkF, hms]
  | succ n ih =>
    intro f g s hn hf hg
    cases f with
    | zero => omega
    | succ f' =>
    cases g with
    | zero => omega
    | succ g' =>
    cases hms : modSplit s with
    | some p =>
      obtain ⟨hlt, -⟩ := modSplit_spec (show modSplit s = some (p.1, p.2) by rw [hms])
      have hrec : zmkKeyToQmkF f' p.2 = zmkKeyToQmkF g' p.2 := by
        apply ih f' g' p.2 <;> omega
      simp [zmkKeyToQmkF, hms, hrec]
    | none => simp [zmkKeyToQmkF, hms]

theorem zmkKeyToQmkF_eq (f : Nat) (s : List Char) (h : s.length < f) :
    zmkKeyToQmkF f s = zmk_key_to_qmk s :=
  zmkKeyToQmkF_congr s.length f (s.length + 1) s (Nat.le_refl _) h (Nat.lt_succ_self _)

/-- Unfolding of the translator in the modifier-form case (source lines
511-519). -/
theorem zmk_key_to_qmk_mod {s m inner : List Char} (h : modSplit s = some (m, inner)) :
    zmk_key_to_qmk s = modGet m ++ '(' :: zmk_key_to_qmk inner ++ [')'] := by
  obtain ⟨hlt, -⟩ := modSplit_spec h
  rw [← zmkKeyToQmkF_eq s.length inner (by omega)]
  show zmkKeyToQmkF (s.length + 1) s = modGet m ++ '(' :: zmkKeyToQmkF s.length inner ++ [')']
  rw [show zmkKeyToQmkF (s.length + 1) s =
        match modSplit s with
        | some (m, inner) => modGet m ++ '(' :: zmkKeyToQmkF s.length inner ++ [')']
        | none =>
          match dictGet ZMK_TO_QMK s with
          | some v => v
          | none => if "KC_".data.isPrefixOf s then s else "KC_".data ++ s
      from rfl]
  rw [h]

/-- Unfolding of the translator when the modifier pattern does not match
(source lines 521-530). -/
theorem zmk_key_to_qmk_plain {s : List Char} (h : modSplit s = none) :
    zmk_key_to_qmk s =
      match dictGet ZMK_TO_QMK s with
      | some v => v
      | none => if "KC_".data.isPrefixOf s then s else "KC_".data ++ s := by
  rw [show zmk_key_to_qmk s =
        match modSplit s with
        | some (m, inner) => modGet m ++ '(' :: zmkKeyToQmkF s.length inner ++ [')']
        | none =>
          match dictGet ZMK_TO_QMK s with
          | some v => v
          | none => if "KC_".data.isPrefixOf s then s else "KC_".data ++ s
      from rfl]
  rw [h]

theorem dictGet_mem {d : List (List Char × List Char)} {k v : List Char}
    (h : dictGet d k = some v) : ∃ p ∈ d, p.1 = k ∧ p.2 = v := by
  unfold dictGet at h
  cases hf : d.reverse.find? (fun p => p.1 = k) with
  | none => rw [hf] at h; simp at h
  | some p =>
    rw [hf] at h
    simp at h
    refine ⟨p, List.mem_reverse.mp (List.mem_of_find?_eq_some hf), ?_, h⟩
    have := List.find?_some hf
    exact of_decide_eq_true this

/-- Every value of the modifier-alias table is a nonempty newline-free
word-character string that is itself not a key of the table. -/
theorem mod_map_vals : ∀ p ∈ ZMK_MOD_MAP,
    p.2 ≠ [] ∧ (∀ c ∈ p.2, pyWordChar c) ∧ dictGet ZMK_MOD_MAP p.2 = none ∧
      '\n' ∉ p.2 := by decide

theorem modGet_word {m : List Char} (h1 : m ≠ []) (h2 : ∀ c ∈ m, pyWordChar c) :
    modGet m ≠ [] ∧ ∀ c ∈ modGet m, pyWordChar c := by
  unfold modGet
  cases hd : dictGet ZMK_MOD_MAP m with
  | none => exact ⟨h1, h2⟩
  | some v =>
    obtain ⟨p, hp, -, hv⟩ := dictGet_mem hd
    obtain ⟨hne, hw, -⟩ := mod_map_vals p hp
    exact ⟨hv ▸ hne, hv ▸ hw⟩

theorem modGet_idem (m : List Char) : modGet (modGet m) = modGet m := by
  cases hd : dictGet ZMK_MOD_MAP m with
  | none =>
    have hm : modGet m = m := by unfold modGet; rw [hd]; rfl
    rw [hm]
    exact hm
  | some v =>
    have hm : modGet m = v := by unfold modGet; rw [hd]; rfl
    obtain ⟨p, hp, -, hv⟩ := dictGet_mem hd
    obtain ⟨-, -, hnone, -⟩ := mod_map_vals p hp
    rw [hv] at hnone
    rw [hm]
    unfold modGet
    rw [hnone]
    rfl

theorem modGet_no_newline {m : List Char} (h : ∀ c ∈ m, pyWordChar c) :
    '\n' ∉ modGet m := by
  unfold modGet
  cases hd : dictGet ZMK_MOD_MAP m with
  | none =>
    intro hc
    have := h '\n' hc
    exact absurd this (by decide)
  | some v =>
    obtain ⟨p, hp, -, hv⟩ := dictGet_mem hd
    obtain ⟨-, -, -, hnl⟩ := mod_map_vals p hp
    exact hv ▸ hnl

theorem takeWhile_all_append {p : Char → Bool} {m r : List Char} {x : Char}
    (hm : ∀ c ∈ m, p c) (hx : p x = false) :
    (m ++ x :: r).takeWhile p = m ∧ (m ++ x :: r).dropWhile p = x :: r := by
  induction m with
  | nil => simp [List.takeWhile, List.dropWhile, hx]
  | cons c cs ih =>
    have hc : p c = true := hm c (by simp)
    have ihh := ih (fun d hd => hm d (by simp [hd]))
    simp [List.takeWhile, List.dropWhile, hc, ihh.1, ihh.2]

/-- The modifier regex recognises a word-character name wrapped around a
nonempty newline-free parenthesised inner token. -/
theorem modSplit_build {m inner : List Char}
    (h1 : m ≠ []) (h2 : ∀ c ∈ m, pyWordChar c) (h3 : inner ≠ []) (h4 : '\n' ∉ inner) :
    modSplit (m ++ '(' :: inner ++ [')']) = some (m, inner) := by
  have hpar : pyWordChar '(' = false := by decide
  obtain ⟨htk, hdr⟩ := takeWhile_all_append (r := inner ++ [')']) (x := '(') h2 hpar
  rw [show m ++ '(' :: inner ++ [')'] = m ++ '(' :: (inner ++ [')']) by simp]
  have hlast : (m ++ '(' :: (inner ++ [')'])).getLast? = some ')' := by
    rw [show m ++ '(' :: (inner ++ [')']) = (m ++ '(' :: inner) ++ [')'] by simp]
    exact List.getLast?_concat _
  have hnl : ¬ (m ++ '(' :: (inner ++ [')'])).getLast? = some '\n' := by
    rw [hlast]; simp
  unfold modSplit
  simp only [if_neg hnl]
  rw [if_pos hlast]
  rw [htk, hdr]
  rw [if_neg h1]
  simp only [List.head?_cons, List.tail_cons, if_true]
  rw [List.dropLast_concat]
  rw [if_pos ⟨h3, h4⟩]

set_option maxRecDepth 40000 in
/-- Every value of the keycode table is nonempty and newline-free, and no
key of the table carries the `KC_` target marker. -/
theorem zmk_table_vals : ∀ p ∈ ZMK_TO_QMK,
    p.2 ≠ [] ∧ '\n' ∉ p.2 ∧ "KC_".data.isPrefixOf p.1 = false := by decide

/-- A token without an opening parenthesis never matches the modifier
pattern. -/
theorem modSplit_none_of_no_paren {s : List Char} (h : '(' ∉ s) : modSplit s = none := by
  cases hms : modSplit s with
  | none => rfl
  | some p =>
    obtain ⟨-, -, -, -, -, hpar⟩ :=
      modSplit_spec (show modSplit s = some (p.1, p.2) by rw [hms])
    exact absurd hpar h

/-- The translator never returns the empty string. -/
theorem zmk_ne_nil (s : List Char) : zmk_key_to_qmk s ≠ [] := by
  cases hms : modSplit s with
  | some p =>
    rw [zmk_key_to_qmk_mod (show modSplit s = some (p.1, p.2) by rw [hms])]
    simp
  | none =>
    rw [zmk_key_to_qmk_plain hms]
    cases hd : dictGet ZMK_TO_QMK s with
    | some v =>
      simp only [hd]
      obtain ⟨q, hq, -, hv⟩ := dictGet_mem hd
      exact hv ▸ (zmk_table_vals q hq).1
    | none =>
      simp only [hd]
      split
      case isTrue hpre =>
        intro hnil
        rw [hnil] at hpre
        exact absurd hpre (by decide)
      case isFalse => simp

/-- The translator never introduces a newline into a newline-free token. -/
theorem zmk_no_newline_aux :
    ∀ (n : Nat) (s : List Char), s.length ≤ n → '\n' ∉ s → '\n' ∉ zmk_key_to_qmk s := by
  intro n
  induction n with
  | zero =>
    intro s hn hs
    have : s = [] := List.length_eq_zero.mp (Nat.le_zero.mp hn)
    subst this
    decide
  | succ n ih =>
    intro s hn hs
    cases hms : modSplit s with
    | some p =>
      obtain ⟨hlt, -, hword, -, hinl, -⟩ :=
        modSplit_spec (show modSplit s = some (p.1, p.2) by rw [hms])
      rw [zmk_key_to_qmk_mod (show modSplit s = some (p.1, p.2) by rw [hms])]
      intro hc
      have hc' : '\n' ∈ modGet p.1 ∨ '\n' = '(' ∨ '\n' ∈ zmk_key_to_qmk p.2 ∨ '\n' = ')' := by
        simpa [List.mem_append, List.mem_cons, or_assoc] using hc
      rcases hc' with h | h | h | h
      · exact absurd h (modGet_no_newline hword)
      · exact absurd h (by decide)
      · exact absurd h (ih p.2 (by omega) hinl)
      · exact absurd h (by decide)
    | none =>
      rw [zmk_key_to_qmk_plain hms]
      cases hd : dictGet ZMK_TO_QMK s with
      | some v =>
        simp only [hd]
        obtain ⟨q, hq, -, hv⟩ := dictGet_mem hd
        exact hv ▸ (zmk_table_vals q hq).2.1
      | none =>
        simp only [hd]
        split
        · exact hs
        · intro hc
          rcases List.mem_append.mp hc with h1 | h2
          · exact absurd h1 (by decide)
          · exact absurd h2 hs

theorem zmk_no_newline {s : List Char} (hs : '\n' ∉ s) : '\n' ∉ zmk_key_to_qmk s :=
  zmk_no_newline_aux s.length s (Nat.le_refl _) hs

/-- Nested ZMK modifier text `M1(M2(...(K)...))`, built outside-in from a
list of modifier names. -/
def wrapMods (mods : List (List Char)) (k : List Char) : List Char :=
  mods.foldr (fun m acc => m ++ '(' :: acc ++ [')']) k

theorem wrapMods_ne_nil {mods : List (List Char)} {k : List Char} (hk : k ≠ []) :
    wrapMods mods k ≠ [] := by
  cases mods with
  | nil => exact hk
  | cons m rest => simp [wrapMods]

theorem wrapMods_no_newline {mods : List (List Char)} {k : List Char}
    (hk : '\n' ∉ k) (hm : ∀ m ∈ mods, ∀ c ∈ m, pyWordChar c) :
    '\n' ∉ wrapMods mods k := by
  induction mods with
  | nil => exact hk
  | cons m rest ih =>
    intro hc
    rw [show wrapMods (m :: rest) k = m ++ '(' :: wrapMods rest k ++ [')'] from rfl] at hc
    have hc' : '\n' ∈ m ∨ '\n' = '(' ∨ '\n' ∈ wrapMods rest k ∨ '\n' = ')' := by
      simpa [List.mem_append, List.mem_cons, or_assoc] using hc
    rcases hc' with h | h | h | h
    · exact absurd (hm m (by simp) '\n' h) (by decide)
    · exact absurd h (by decide)
    · exact absurd h (ih (fun m' hm' => hm m' (by simp [hm'])))
    · exact absurd h (by decide)

/-- C6: translating a nested modifier token `M1(M2(...(K)...))` (for
word-character modifier names and a nonempty, newline-free innermost token
`K`) produces the nested modified keycode whose innermost plain keycode is
the translation of `K`, wrapped by the translated modifier aliases with the
outer-to-inner order preserved; the nesting depth is arbitrary.  In
particular, with `M1 = LG` and `M2 = LS`, the token `LG(LS(K))` translates
to `LGUI(LSFT(...))` around the translation of `K`. -/
theorem claim_C6_modifier_nesting (mods : List (List Char)) (k : List Char)
    (hmods : ∀ m ∈ mods, m ≠ [] ∧ ∀ c ∈ m, pyWordChar c)
    (hk : k ≠ []) (hknl : '\n' ∉ k) :
    zmk_key_to_qmk (wrapMods mods k) =
      (mods.map modGet).foldr (fun m acc => m ++ '(' :: acc ++ [')']) (zmk_key_to_qmk k) := by
  induction mods with
  | nil => rfl
  | cons m rest ih =>
    have hm := hmods m (by simp)
    have hrest : ∀ m' ∈ rest, m' ≠ [] ∧ ∀ c ∈ m', pyWordChar c :=
      fun m' h => hmods m' (by simp [h])
    have hsplit : modSplit (wrapMods (m :: rest) k) = some (m, wrapMods rest k) := by
      rw [show wrapMods (m :: rest) k = m ++ '(' :: wrapMods rest k ++ [')'] from rfl]
      exact modSplit_build hm.1 hm.2 (wrapMods_ne_nil hk)
        (wrapMods_no_newline hknl (fun m' h => (hrest m' h).2))
    rw [zmk_key_to_qmk_mod hsplit, ih hrest]
    rfl

set_option maxRecDepth 40000 in
/-- C6 witness: the theorem instantiated at the modifier names `LG`, `LS`
and the concrete inner key `K`, together with the concrete evaluation
showing `LG(LS(K))` translates to `LGUI(LSFT(KC_K))`. -/
theorem claim_C6_modifier_nesting_witness :
    zmk_key_to_qmk (wrapMods ["LG".data, "LS".data] "K".data) =
      ((["LG".data, "LS".data].map modGet).foldr
        (fun m acc => m ++ '(' :: acc ++ [')']) (zmk_key_to_qmk "K".data)) ∧
    wrapMods ["LG".data, "LS".data] "K".data = "LG(LS(K))".data ∧
    zmk_key_to_qmk "LG(LS(K))".data = "LGUI(LSFT(KC_K))".data :=
  ⟨claim_C6_modifier_nesting ["LG".data, "LS".data] "K".data (by decide) (by decide) (by decide),
    by decide, by decide⟩

set_option maxRecDepth 40000 in
/-- C10 counterexample: keycode translation is not idempotent.  The token
`(A)` is translated by the synthesising fallback to `KC_(A)`, but that
emitted keycode is not a fixed point: translating it again matches the
modifier pattern (`KC_` is a word-character run followed by a
parenthesised inner token) and yields `KC_(KC_A)`. -/
theorem claim_C10_counterexample :
    zmk_key_to_qmk "(A)".data = "KC_(A)".data ∧
    zmk_key_to_qmk (zmk_key_to_qmk "(A)".data) = "KC_(KC_A)".data ∧
    zmk_key_to_qmk (zmk_key_to_qmk "(A)".data) ≠ zmk_key_to_qmk "(A)".data :=
  ⟨by decide, by decide, by decide⟩

set_option maxRecDepth 100000 in
/-- Every value emitted through the static keycode table is a fixed point of
the translator. -/
theorem zmk_table_fixed : ∀ p ∈ ZMK_TO_QMK, zmk_key_to_qmk p.2 = p.2 := by decide

/-- Well-formed keycode tokens: either a token without any opening
parenthesis, or a nested modifier form `m(t)` with a nonempty
word-character modifier name and a nonempty newline-free well-formed inner
token.  These cover the binding tokens of the recognised grammar. -/
inductive WFTok : List Char → Prop
  | base (t : List Char) (h : '(' ∉ t) : WFTok t
  | wrap (m t : List Char) (hm1 : m ≠ []) (hm2 : ∀ c ∈ m, pyWordChar c)
      (hne : t ≠ []) (hnl : '\n' ∉ t) (ht : WFTok t) : WFTok (m ++ '(' :: t ++ [')'])

theorem isPrefixOf_append_self (l r : List Char) : l.isPrefixOf (l ++ r) = true := by
  induction l with
  | nil => simp [List.isPrefixOf]
  | cons c cs ih => simp [List.isPrefixOf, ih]

/-- C10 amended: translation is idempotent on every well-formed token
(parenthesis-free tokens and arbitrarily nested modifier forms over them);
in particular every table entry, every passed-through `KC_` code, every
modifier-wrapped form over such tokens, and every keycode synthesised from
a parenthesis-free token is a fixed point of the translator.  (The claim
fails only for the synthesising fallback applied to a token that itself
contains a parenthesised group, as the counterexample shows.) -/
theorem claim_C10_amended_idem (t : List Char) (hwf : WFTok t) :
    zmk_key_to_qmk (zmk_key_to_qmk t) = zmk_key_to_qmk t := by
  induction hwf with
  | base t h =>
    have hms : modSplit t = none := modSplit_none_of_no_paren h
    rw [zmk_key_to_qmk_plain hms]
    cases hd : dictGet ZMK_TO_QMK t with
    | some v =>
      simp only [hd]
      obtain ⟨q, hq, -, hv⟩ := dictGet_mem hd
      exact hv ▸ zmk_table_fixed q hq
    | none =>
      simp only [hd]
      split
      case isTrue hpre =>
        rw [zmk_key_to_qmk_plain hms]
        simp only [hd]
        rw [if_pos hpre]
      case isFalse hpre =>
        have hnop : '(' ∉ "KC_".data ++ t := by
          intro hc
          rcases List.mem_append.mp hc with h1 | h2
          · exact absurd h1 (by decide)
          · exact absurd h2 h
        have hms2 : modSplit ("KC_".data ++ t) = none := modSplit_none_of_no_paren hnop
        rw [zmk_key_to_qmk_plain hms2]
        have hd2 : dictGet ZMK_TO_QMK ("KC_".data ++ t) = none := by
          cases hd2 : dictGet ZMK_TO_QMK ("KC_".data ++ t) with
          | none => rfl
          | some v =>
            obtain ⟨q, hq, hk, -⟩ := dictGet_mem hd2
            have hbad := (zmk_table_vals q hq).2.2
            rw [hk, isPrefixOf_append_self] at hbad
            exact absurd hbad (by simp)
        simp only [hd2]
        rw [if_pos (isPrefixOf_append_self "KC_".data t)]
  | wrap m t hm1 hm2 hne hnl ht ih =>
    have hsplit : modSplit (m ++ '(' :: t ++ [')']) = some (m, t) :=
      modSplit_build hm1 hm2 hne hnl
    rw [zmk_key_to_qmk_mod hsplit]
    have hsplit2 : modSplit (modGet m ++ '(' :: zmk_key_to_qmk t ++ [')'])
        = some (modGet m, zmk_key_to_qmk t) := by
      obtain ⟨hg1, hg2⟩ := modGet_word hm1 hm2
      exact modSplit_build hg1 hg2 (zmk_ne_nil t) (zmk_no_newline hnl)
    rw [zmk_key_to_qmk_mod hsplit2]
    rw [modGet_idem, ih]

set_option maxRecDepth 40000 in
/-- C10 amended witness: the idempotence theorem applied to the concrete
well-formed token `LG(LS(K))`. -/
theorem claim_C10_amended_idem_witness :
    zmk_key_to_qmk (zmk_key_to_qmk "LG(LS(K))".data) = zmk_key_to_qmk "LG(LS(K))".data :=
  claim_C10_amended_idem "LG(LS(K))".data
    (show WFTok ("LG".data ++ '(' :: ("LS".data ++ '(' :: "K".data ++ [')']) ++ [')']) from
      WFTok.wrap "LG".data ("LS".data ++ '(' :: "K".data ++ [')'])
        (by decide) (by decide) (by decide) (by decide)
        (WFTok.wrap "LS".data "K".data (by decide) (by decide) (by decide) (by decide)
          (WFTok.base "K".data (by decide))))

/-- Dataclass `TapDance` (source lines 161-167). -/
structure TapDance where
  tap : List Char
  hold : List Char
  tapping_term : Nat := 140
  double_tap : List Char := kcNo
  tap_hold : List Char := kcNo
deriving DecidableEq

/-- Dataclass `Behavior` (source lines 181-187). -/
structure Behavior where
  name : List Char
  tapping_term : Nat := 200
  flavor : List Char := "tap-preferred".data
  require_prior_idle : Nat := 0
deriving DecidableEq

/-- The tap-dance accumulator of `ZMKParser` (`self.tap_dances` and
`self.td_map`, source lines 205-206).  The Python dict `td_map` only ever
receives fresh keys, so it is modelled as an association list with
first-match lookup. -/
structure TDState where
  tap_dances : List TapDance
  td_map : List (List Char × Nat)
deriving DecidableEq

/-- Lookup in the `td_map` dict. -/
def tdLookup : List (List Char × Nat) → List Char → Option Nat
  | [], _ => none
  | p :: ps, k => if p.1 = k then some p.2 else tdLookup ps k

/-- Lookup in the `self.keymap.behaviors` dict. -/
def behGet : List (List Char × Behavior) → List Char → Option Behavior
  | [], _ => none
  | p :: ps, k => if p.1 = k then some p.2 else behGet ps k

/-- The dedup key `f"{qmk_tap}|{qmk_hold}"` (source line 545). -/
def tdKey (tap hold : List Char) : List Char := tap ++ '|' :: hold

/-- The reference string `f"TD({idx})"` (source lines 547 and 558). -/
def tdRef (i : Nat) : List Char := "TD(".data ++ (Nat.repr i).data ++ [')']

/-- Tapping-term resolution of `_create_tap_dance` (source lines 537-542):
the named behavior wins, then a behavior literally named `mt`, then 140. -/
def resolveTappingTerm (behs : List (List Char × Behavior)) (beh : List Char) : Nat :=
  match behGet behs beh with
  | some b => b.tapping_term
  | none =>
    match behGet behs "mt".data with
    | some b => b.tapping_term
    | none => 140

/-- Model of `ZMKParser._create_tap_dance` (source lines 532-558). -/
def create_tap_dance (behs : List (List Char × Behavior)) (tap_key hold_key beh : List Char)
    (st : TDState) : List Char × TDState :=
  let qmk_tap := zmk_key_to_qmk tap_key
  let qmk_hold := zmk_key_to_qmk hold_key
  let tapping_term := resolveTappingTerm behs beh
  let td_key := tdKey qmk_tap qmk_hold
  match tdLookup st.td_map td_key with
  | some idx => (tdRef idx, st)
  | none =>
      (tdRef st.tap_dances.length,
        { tap_dances := st.tap_dances ++
            [{ tap := qmk_tap, hold := qmk_hold, tapping_term := tapping_term }],
          td_map := st.td_map ++ [(td_key, st.tap_dances.length)] })

/-- One mod-tap (or custom hold-tap) request as issued by the binding
parser: ZMK tap key, ZMK hold key, behavior keyword. -/
structure TDReq where
  tap_key : List Char
  hold_key : List Char
  beh : List Char
deriving DecidableEq

/-- The dedup key of a request after keycode translation. -/
def reqKey (r : TDReq) : List Char :=
  tdKey (zmk_key_to_qmk r.tap_key) (zmk_key_to_qmk r.hold_key)

/-- Sequential processing of mod-tap requests through the accumulator, as
`_parse_bindings` does while walking the binding tokens; returns the
produced `TD(i)` references in order together with the final state. -/
def runTapDances (behs : List (List Char × Behavior)) :
    List TDReq → TDState → List (List Char) × TDState
  | [], st => ([], st)
  | r :: rs, st =>
    let p := create_tap_dance behs r.tap_key r.hold_key r.beh st
    let q := runTapDances behs rs p.2
    (p.1 :: q.1, q.2)

/-- Invariant of the accumulator: `td_map` indexes exactly the entries of
`tap_dances` by their dedup key. -/
def TDInv (st : TDState) : Prop :=
  (∀ i td, st.tap_dances[i]? = some td → tdLookup st.td_map (tdKey td.tap td.hold) = some i) ∧
  (∀ k i, tdLookup st.td_map k = some i →
    ∃ td, st.tap_dances[i]? = some td ∧ tdKey td.tap td.hold = k)

theorem tdLookup_append_some {m1 m2 : List (List Char × Nat)} {k : List Char} {i : Nat}
    (h : tdLookup m1 k = some i) : tdLookup (m1 ++ m2) k = some i := by
  induction m1 with
  | nil => simp [tdLookup] at h
  | cons p ps ih =>
    by_cases hp : p.1 = k
    · simp only [tdLookup, if_pos hp] at h ⊢
      exact h
    · simp only [tdLookup, if_neg hp] at h ⊢
      exact ih h

theorem tdLookup_append_none {m1 m2 : List (List Char × Nat)} {k : List Char}
    (h : tdLookup m1 k = none) : tdLookup (m1 ++ m2) k = tdLookup m2 k := by
  induction m1 with
  | nil => simp [tdLookup]
  | cons p ps ih =>
    by_cases hp : p.1 = k
    · simp only [tdLookup, if_pos hp] at h
      exact absurd h (by simp)
    · simp only [tdLookup, if_neg hp] at h ⊢
      exact ih h

theorem create_td_found {behs : List (List Char × Behavior)} {t h b : List Char} {st : TDState}
    {idx : Nat} (hf : tdLookup st.td_map (tdKey (zmk_key_to_qmk t) (zmk_key_to_qmk h)) = some idx) :
    create_tap_dance behs t h b st = (tdRef idx, st) := by
  simp only [create_tap_dance, hf]

theorem create_td_new {behs : List (List Char × Behavior)} {t h b : List Char} {st : TDState}
    (hf : tdLookup st.td_map (tdKey (zmk_key_to_qmk t) (zmk_key_to_qmk h)) = none) :
    create_tap_dance behs t h b st =
      (tdRef st.tap_dances.length,
        { tap_dances := st.tap_dances ++
            [{ tap := zmk_key_to_qmk t, hold := zmk_key_to_qmk h,
               tapping_term := resolveTappingTerm behs b }],
          td_map := st.td_map ++
            [(tdKey (zmk_key_to_qmk t) (zmk_key_to_qmk h), st.tap_dances.length)] }) := by
  simp only [create_tap_dance, hf]

/-- Each `_create_tap_dance` call preserves the accumulator invariant,
preserves every existing key-to-index association, and returns a `TD(i)`
reference whose index is the one the final map associates to the request's
translated pair. -/
theorem create_td_spec {behs : List (List Char × Behavior)} {t h b : List Char} {st : TDState}
    (hinv : TDInv st) :
    TDInv (create_tap_dance behs t h b st).2 ∧
    (∀ k i, tdLookup st.td_map k = some i →
      tdLookup (create_tap_dance behs t h b st).2.td_map k = some i) ∧
    ∃ i, (create_tap_dance behs t h b st).1 = tdRef i ∧
      tdLookup (create_tap_dance behs t h b st).2.td_map
        (tdKey (zmk_key_to_qmk t) (zmk_key_to_qmk h)) = some i := by
  cases hf : tdLookup st.td_map (tdKey (zmk_key_to_qmk t) (zmk_key_to_qmk h)) with
  | some idx =>
    rw [create_td_found hf]
    exact ⟨hinv, fun k i hk => hk, idx, rfl, hf⟩
  | none =>
    rw [create_td_new hf]
    dsimp only
    set n := st.tap_dances.length with hn
    set e : TapDance :=
      { tap := zmk_key_to_qmk t, hold := zmk_key_to_qmk h,
        tapping_term := resolveTappingTerm behs b } with he
    set k0 := tdKey (zmk_key_to_qmk t) (zmk_key_to_qmk h) with hk0
    refine ⟨⟨?_, ?_⟩, ?_, ?_⟩
    · intro i td hget
      rcases Nat.lt_trichotomy i n with hlt | heq | hgt
      · rw [List.getElem?_append_left hlt] at hget
        exact tdLookup_append_some (hinv.1 i td hget)
      · subst heq
        rw [List.getElem?_concat_length] at hget
        injection hget with hget
        subst hget
        rw [tdLookup_append_none hf]
        simp [tdLookup]
      · exfalso
        have hlen : (st.tap_dances ++ [e]).length ≤ i := by
          simp only [List.length_append, List.length_singleton]
          omega
        rw [List.getElem?_eq_none hlen] at hget
        exact absurd hget (by simp)
    · intro k i hk
      cases hm : tdLookup st.td_map k with
      | some j =>
        have hj : tdLookup (st.td_map ++ [(k0, n)]) k = some j := tdLookup_append_some hm
        rw [hj] at hk
        injection hk with hk
        obtain ⟨td, hget, hkey⟩ := hinv.2 k j hm
        have hjlt : j < n := by
          rcases List.getElem?_eq_some_iff.mp hget with ⟨hi, -⟩
          exact hi
        refine ⟨td, ?_, hkey⟩
        rw [← hk]
        rw [List.getElem?_append_left hjlt]
        exact hget
      | none =>
        rw [tdLookup_append_none hm] at hk
        simp only [tdLookup] at hk
        by_cases hkk : k0 = k
        · rw [if_pos hkk] at hk
          injection hk with hk
          subst hk
          exact ⟨e, by rw [List.getElem?_concat_length], hkk⟩
        · rw [if_neg hkk] at hk
          exact absurd hk (by simp)
    · intro k i hk
      exact tdLookup_append_some hk
    · refine ⟨n, rfl, ?_⟩
      rw [tdLookup_append_none hf]
      simp [tdLookup]

/-- Processing a request list preserves the invariant and existing
associations, and every produced reference carries the index that the
final map associates to that request's translated pair. -/
theorem runTapDances_spec (behs : List (List Char × Behavior)) :
    ∀ (reqs : List TDReq) (st : TDState), TDInv st →
      TDInv (runTapDances behs reqs st).2 ∧
      (∀ k i, tdLookup st.td_map k = some i →
        tdLookup (runTapDances behs reqs st).2.td_map k = some i) ∧
      (∀ j (hj : j < reqs.length), ∃ i,
        (runTapDances behs reqs st).1[j]? = some (tdRef i) ∧
        tdLookup (runTapDances behs reqs st).2.td_map (reqKey (reqs.get ⟨j, hj⟩)) = some i) := by
  intro reqs
  induction reqs with
  | nil =>
    intro st hinv
    exact ⟨hinv, fun k i hk => hk, fun j hj => absurd hj (by simp)⟩
  | cons r rs ih =>
    intro st hinv
    obtain ⟨hinv1, hmono1, i0, href0, hidx0⟩ :=
      @create_td_spec behs r.tap_key r.hold_key r.beh st hinv
    obtain ⟨hinv2, hmono2, hrefs⟩ :=
      ih (create_tap_dance behs r.tap_key r.hold_key r.beh st).2 hinv1
    have hrun : runTapDances behs (r :: rs) st =
        ((create_tap_dance behs r.tap_key r.hold_key r.beh st).1 ::
          (runTapDances behs rs (create_tap_dance behs r.tap_key r.hold_key r.beh st).2).1,
         (runTapDances behs rs (create_tap_dance behs r.tap_key r.hold_key r.beh st).2).2) := rfl
    rw [hrun]
    refine ⟨hinv2, ?_, ?_⟩
    · intro k i hk
      exact hmono2 k i (hmono1 k i hk)
    · intro j hj
      cases j with
      | zero =>
        refine ⟨i0, ?_, ?_⟩
        · simp [href0]
        · exact hmono2 _ i0 hidx0
      | succ j' =>
        obtain ⟨i, href, hidx⟩ := hrefs j' (by simpa using hj)
        exact ⟨i, by simpa using href, hidx⟩

/-- The invariant forces pairwise-distinct `(tap, hold)` pairs. -/
theorem TDInv_pairwise {st : TDState} (hinv : TDInv st) :
    List.Pairwise (fun a b => a.tap ≠ b.tap ∨ a.hold ≠ b.hold) st.tap_dances := by
  rw [List.pairwise_iff_getElem]
  intro i j hi hj hij
  by_contra hcon
  push_neg at hcon
  obtain ⟨htap, hhold⟩ := hcon
  have hgi : st.tap_dances[i]? = some st.tap_dances[i] := List.getElem?_eq_getElem hi
  have hgj : st.tap_dances[j]? = some st.tap_dances[j] := List.getElem?_eq_getElem hj
  have h1 := hinv.1 i _ hgi
  have h2 := hinv.1 j _ hgj
  rw [show tdKey st.tap_dances[j].tap st.tap_dances[j].hold =
        tdKey st.tap_dances[i].tap st.tap_dances[i].hold by rw [htap, hhold]] at h2
  rw [h1] at h2
  injection h2 with h2
  omega

/-- C2: tap-dance deduplication.  For any behavior table and any sequence of
mod-tap (or custom hold-tap) requests processed from the empty accumulator:
two requests whose `(tap, hold)` pairs coincide after keycode translation
receive the same `TD(i)` reference, and no two entries of the resulting
tap-dance list share the same `(tap, hold)` pair. -/
theorem claim_C2_tap_dance_dedup (behs : List (List Char × Behavior)) (reqs : List TDReq) :
    (∀ i j (hi : i < reqs.length) (hj : j < reqs.length),
      zmk_key_to_qmk (reqs.get ⟨i, hi⟩).tap_key = zmk_key_to_qmk (reqs.get ⟨j, hj⟩).tap_key →
      zmk_key_to_qmk (reqs.get ⟨i, hi⟩).hold_key = zmk_key_to_qmk (reqs.get ⟨j, hj⟩).hold_key →
      (runTapDances behs reqs ⟨[], []⟩).1[i]? = (runTapDances behs reqs ⟨[], []⟩).1[j]?) ∧
    List.Pairwise (fun a b => a.tap ≠ b.tap ∨ a.hold ≠ b.hold)
      (runTapDances behs reqs ⟨[], []⟩).2.tap_dances := by
  have hinv0 : TDInv ⟨[], []⟩ := by
    constructor
    · intro i td hget
      simp at hget
    · intro k i hk
      simp [tdLookup] at hk
  obtain ⟨hinv, -, hrefs⟩ := runTapDances_spec behs reqs ⟨[], []⟩ hinv0
  refine ⟨?_, TDInv_pairwise hinv⟩
  intro i j hi hj htap hhold
  obtain ⟨a, hrefa, hidxa⟩ := hrefs i hi
  obtain ⟨b, hrefb, hidxb⟩ := hrefs j hj
  have hkeq : reqKey (reqs.get ⟨i, hi⟩) = reqKey (reqs.get ⟨j, hj⟩) := by
    unfold reqKey tdKey
    rw [htap, hhold]
  rw [hkeq, hidxb] at hidxa
  injection hidxa with hidxa
  rw [hrefa, hrefb, hidxa]

/-- C2 witness: three concrete requests where the first and third share the
same translated `(tap, hold)` pair (under different behavior names) receive
the same reference, and the final tap-dance list is duplicate-free. -/
theorem claim_C2_tap_dance_dedup_witness :
    ((runTapDances [] [⟨"A".data, "LSHFT".data, "mt".data⟩,
        ⟨"B".data, "LCTRL".data, "mt".data⟩,
        ⟨"A".data, "LSHFT".data, "mt0".data⟩] ⟨[], []⟩).1[0]? =
      (runTapDances [] [⟨"A".data, "LSHFT".data, "mt".data⟩,
        ⟨"B".data, "LCTRL".data, "mt".data⟩,
        ⟨"A".data, "LSHFT".data, "mt0".data⟩] ⟨[], []⟩).1[2]?) ∧
    List.Pairwise (fun a b => a.tap ≠ b.tap ∨ a.hold ≠ b.hold)
      (runTapDances [] [⟨"A".data, "LSHFT".data, "mt".data⟩,
        ⟨"B".data, "LCTRL".data, "mt".data⟩,
        ⟨"A".data, "LSHFT".data, "mt0".data⟩] ⟨[], []⟩).2.tap_dances :=
  ⟨(claim_C2_tap_dance_dedup [] _).1 0 2 (by decide) (by decide) (by decide) (by decide),
    (claim_C2_tap_dance_dedup [] _).2⟩

/-- Helper building a `(key, char)` pair for the `text_chars` dict. -/
def kvc (a : String) (c : Char) : List Char × Char := (a.data, c)

/-- Transcription of the `text_chars` dict of `_keys_to_text` (source lines
300-314). -/
def text_chars : List (List Char × Char) := [
  kvc "A" 'a', kvc "B" 'b', kvc "C" 'c', kvc "D" 'd', kvc "E" 'e', kvc "F" 'f',
  kvc "G" 'g', kvc "H" 'h', kvc "I" 'i', kvc "J" 'j', kvc "K" 'k', kvc "L" 'l',
  kvc "M" 'm', kvc "N" 'n', kvc "O" 'o', kvc "P" 'p', kvc "Q" 'q', kvc "R" 'r',
  kvc "S" 's', kvc "T" 't', kvc "U" 'u', kvc "V" 'v', kvc "W" 'w', kvc "X" 'x',
  kvc "Y" 'y', kvc "Z" 'z',
  kvc "N0" '0', kvc "N1" '1', kvc "N2" '2', kvc "N3" '3', kvc "N4" '4',
  kvc "N5" '5', kvc "N6" '6', kvc "N7" '7', kvc "N8" '8', kvc "N9" '9',
  kvc "SPACE" ' ', kvc "SPC" ' ',
  kvc "DOT" '.', kvc "PERIOD" '.',
  kvc "COMMA" ',',
  kvc "UNDER" '_', kvc "UNDERSCORE" '_', kvc "MINUS" '-',
  kvc "PRCNT" '%', kvc "PERCENT" '%',
  kvc "STAR" '*', kvc "ASTERISK" '*', kvc "ASTRK" '*']

/-- Lookup in `text_chars` (no duplicated keys, first match). -/
def textCharsGet : List (List Char × Char) → List Char → Option Char
  | [], _ => none
  | p :: ps, k => if p.1 = k then some p.2 else textCharsGet ps k

/-- Model of `re.match(r'LS\((\w+)\)', key)` (source line 319): the key must
START with `LS(`, followed by a nonempty word run and a closing paren;
trailing characters after the closing paren are allowed because the
pattern is not anchored at the end. -/
def shiftInner (k : List Char) : Option (List Char) :=
  if "LS(".data.isPrefixOf k then
    let r := k.drop 3
    let w := r.takeWhile pyWordChar
    if w ≠ [] ∧ (r.dropWhile pyWordChar).head? = some ')' then some w else none
  else none

/-- Outcome of one iteration of the `_keys_to_text` loop body for one key
(source lines 316-335): the key contributes a character, is skipped, or
aborts the conversion. -/
inductive KOut where
  | ch (c : Char)
  | skip
  | bad
deriving DecidableEq

/-- Branches of the loop body that inspect the whole key (source lines
328-335). -/
def keyOutPlain (key : List Char) : KOut :=
  match textCharsGet text_chars key with
  | some c => KOut.ch c
  | none =>
    if key = "RET".data ∨ key = "ENTER".data then KOut.ch '\n'
    else if key = "NONE".data ∨ key = "none".data then KOut.skip
    else KOut.bad

/-- Full loop body for one key (source lines 316-335), shift-wrapped branch
first; an `LS(...)` key whose inner key is neither in `text_chars` nor
`MINUS` falls through to the plain branches. -/
def keyOut (key : List Char) : KOut :=
  match shiftInner key with
  | some inner =>
    match textCharsGet text_chars inner with
    | some c => KOut.ch c.toUpper
    | none =>
      if inner = "MINUS".data then KOut.ch '_'
      else keyOutPlain key
  | none => keyOutPlain key

/-- Accumulator loop of `ZMKParser._keys_to_text` (source lines 297-337);
returns the text if the accumulated string is nonempty, `none` otherwise
or on the first inconvertible key. -/
def keys_to_text_loop : List (List Char) → List Char → Option (List Char)
  | [], acc => if acc = [] then none else some acc
  | k :: ks, acc =>
    match keyOut k with
    | KOut.ch c => keys_to_text_loop ks (acc ++ [c])
    | KOut.skip => keys_to_text_loop ks acc
    | KOut.bad => none

/-- Model of `ZMKParser._keys_to_text` (source lines 297-337). -/
def keys_to_text (keys : List (List Char)) : Option (List Char) := keys_to_text_loop keys []

/-- Macro action construction from the extracted `&kp` keys of one macro
(source lines 285-293): text action when the keys convert, otherwise a
single tap action over the translated keycodes; no action for an empty key
list. -/
def macroActionsOfKeys (keys : List (List Char)) : List (List (List Char)) :=
  if keys = [] then []
  else
    match keys_to_text keys with
    | some t => [["text".data, t]]
    | none => ["tap".data :: keys.map zmk_key_to_qmk]

/-- The character a key contributes when it has one. -/
def keyChar (k : List Char) : Option Char :=
  match keyOut k with
  | KOut.ch c => some c
  | _ => none

theorem keys_to_text_loop_all_ch {keys : List (List Char)} :
    ∀ acc, (∀ k ∈ keys, ∃ c, keyOut k = KOut.ch c) →
      keys_to_text_loop keys acc =
        if acc ++ keys.filterMap keyChar = [] then none
        else some (acc ++ keys.filterMap keyChar) := by
  induction keys with
  | nil => intro acc _; simp [keys_to_text_loop]
  | cons k ks ih =>
    intro acc hall
    obtain ⟨c, hc⟩ := hall k (by simp)
    have hkc : keyChar k = some c := by unfold keyChar; rw [hc]
    have hrec := ih (acc ++ [c]) (fun k' hk' => hall k' (by simp [hk']))
    simp only [keys_to_text_loop, hc]
    rw [hrec]
    simp [hkc, List.filterMap_cons, List.append_assoc]

theorem keys_to_text_loop_bad {keys : List (List Char)} :
    ∀ acc, (∃ k ∈ keys, keyOut k = KOut.bad) → keys_to_text_loop keys acc = none := by
  induction keys with
  | nil => intro acc h; simp at h
  | cons k ks ih =>
    intro acc hex
    cases hk : keyOut k with
    | bad => simp [keys_to_text_loop, hk]
    | ch c =>
      simp only [keys_to_text_loop, hk]
      apply ih
      rcases hex with ⟨k', hk', hbad⟩
      rcases List.mem_cons.mp hk' with rfl | hmem
      · rw [hk] at hbad; exact absurd hbad (by simp)
      · exact ⟨k', hmem, hbad⟩
    | skip =>
      simp only [keys_to_text_loop, hk]
      apply ih
      rcases hex with ⟨k', hk', hbad⟩
      rcases List.mem_cons.mp hk' with rfl | hmem
      · rw [hk] at hbad; exact absurd hbad (by simp)
      · exact ⟨k', hmem, hbad⟩

/-- C7: macro text-collapsing is all-or-nothing.  For a nonempty extracted
key list: if every key contributes a character through the text mapping
(including shift-wrapped forms), the macro becomes a single text-insertion
action whose text is the concatenation of the per-key characters; if some
key neither contributes a character nor is skippable, the whole macro
becomes one multi-key tap action of translated keycodes — never a partial
text. -/
theorem claim_C7_macro_text_all_or_nothing (keys : List (List Char)) (hne : keys ≠ []) :
    ((∀ k ∈ keys, ∃ c, keyOut k = KOut.ch c) →
      macroActionsOfKeys keys = [["text".data, keys.filterMap keyChar]]) ∧
    ((∃ k ∈ keys, keyOut k = KOut.bad) →
      macroActionsOfKeys keys = ["tap".data :: keys.map zmk_key_to_qmk]) := by
  constructor
  · intro hall
    have hloop := keys_to_text_loop_all_ch [] hall
    have hfmne : keys.filterMap keyChar ≠ [] := by
      cases keys with
      | nil => exact absurd rfl hne
      | cons k ks =>
        obtain ⟨c, hc⟩ := hall k (by simp)
        have hkc : keyChar k = some c := by unfold keyChar; rw [hc]
        simp [List.filterMap_cons, hkc]
    unfold macroActionsOfKeys keys_to_text
    rw [if_neg hne, hloop]
    simp [hfmne]
  · intro hbad
    have hloop := keys_to_text_loop_bad [] hbad
    unfold macroActionsOfKeys keys_to_text
    rw [if_neg hne, hloop]

/-- C7 witness: the keys `H`, `I` collapse to the text `"hi"`, and the keys
`H`, `F1` (where `F1` has no character mapping) fall back to a single tap
action over the translated keycodes, not a partial text. -/
theorem claim_C7_macro_text_all_or_nothing_witness :
    macroActionsOfKeys ["H".data, "I".data] = [["text".data, "hi".data]] ∧
    macroActionsOfKeys ["H".data, "F1".data] =
      ["tap".data :: ["H".data, "F1".data].map zmk_key_to_qmk] ∧
    ["H".data, "F1".data].map zmk_key_to_qmk = ["KC_H".data, "KC_F1".data] := by
  refine ⟨?_, ?_, by decide⟩
  · rw [(claim_C7_macro_text_all_or_nothing ["H".data, "I".data] (by decide)).1 (by
      intro k hk
      rcases List.mem_cons.mp hk with rfl | hk2
      · exact ⟨'h', by decide⟩
      · rcases List.mem_cons.mp hk2 with rfl | hk3
        · exact ⟨'i', by decide⟩
        · simp at hk3)]
    decide
  · exact (claim_C7_macro_text_all_or_nothing ["H".data, "F1".data] (by decide)).2
      ⟨"F1".data, by decide, by decide⟩

/-- Index of the first occurrence of the two-character sequence `a b`. -/
def findPair (a b : Char) : List Char → Option Nat
  | [] => none
  | [_] => none
  | x :: y :: rest =>
    if x = a ∧ y = b then some 0
    else (findPair a b (y :: rest)).map (· + 1)

/-- One pass of `re.sub(r'/\*.*?\*/', '', text, flags=re.DOTALL)` (source
line 356): repeatedly remove the leftmost `/*` together with the lazily
matched span up to the first following `*/`; as with `re.sub`, the kept
prefix is not rescanned and matching continues after the removed span. -/
def stripBlockF : Nat → List Char → List Char
  | 0, s => s
  | f + 1, s =>
    match findPair '/' '*' s with
    | none => s
    | some i =>
      match findPair '*' '/' (s.drop (i + 2)) with
      | none => s
      | some j => s.take i ++ stripBlockF f (s.drop (i + 2 + j + 2))

def stripBlock (s : List Char) : List Char := stripBlockF (s.length + 1) s

/-- Truncation of one (newline-free) line at its first `//`, modelling one
match of `re.sub(r'//.*$', '', text, flags=re.MULTILINE)` on that line
(source line 358): `.*` is greedy and cannot cross the newline, so the
whole tail of the line from the first `//` is removed. -/
def stripLineOne : List Char → List Char
  | [] => []
  | [c] => [c]
  | x :: y :: rest => if x = '/' ∧ y = '/' then [] else x :: stripLineOne (y :: rest)

/-- Model of `ZMKParser._strip_comments` (source lines 353-359): block
comments removed first over the whole text, then every line truncated at
its first `//`. -/
def strip_comments (s : List Char) : List Char :=
  List.intercalate ['\n'] (((stripBlock s).splitOn '\n').map stripLineOne)

/-- Generic leftmost-scanning non-overlapping `re.finditer` driver: try the
matcher at each position from the left; on a match emit it and continue
after the consumed span.  Every matcher used consumes at least one
character, so fuel `length + 1` suffices. -/
def scanAllF {α : Type} (atPos : List Char → Option (α × List Char)) :
    Nat → List Char → List α
  | 0, _ => []
  | f + 1, s =>
    match atPos s with
    | some (a, rest) => a :: scanAllF atPos f rest
    | none =>
      match s with
      | [] => []
      | _ :: t => scanAllF atPos f t

def scanAll {α : Type} (atPos : List Char → Option (α × List Char)) (s : List Char) : List α :=
  scanAllF atPos (s.length + 1) s

/-- Consume a literal (a regex literal fragment). -/
def lit (pat s : List Char) : Option (List Char) :=
  if pat.isPrefixOf s then some (s.drop pat.length) else none

/-- Matcher for one match of the behavior pattern
`(\w+):\s*\1\s*\{([^}]+)\}` (source line 226) at the current position.
Pattern semantics used: `\w+` is greedy and only its maximal run can be
followed by the non-word `:`; each `\s*` is greedy and only its maximal
run can be followed by the backreference (starting with a word character)
or by `{`; `[^}]+` is greedy and must be a nonempty run ended by the
required `}`.  Returns `((name, body), rest-after-match)`. -/
def tryBehaviorAt (s : List Char) : Option ((List Char × List Char) × List Char) := do
  let w := s.takeWhile pyWordChar
  if w = [] then none else
  let r2 ← lit [':'] (s.dropWhile pyWordChar)
  let r3 ← lit w (r2.dropWhile pySpaceChar)
  let r4 ← lit ['{'] (r3.dropWhile pySpaceChar)
  let body := r4.takeWhile (fun c => c ≠ '}')
  if body = [] then none else
  match r4.dropWhile (fun c => c ≠ '}') with
  | '}' :: r5 => some ((w, body), r5)
  | _ => none

/-- One numeric property search such as
`re.search(r'tapping-term-ms\s*=\s*<(\d+)>', body)` (source lines 235,
245, 257, 265): literal key, `=`, then a nonempty digit run in angle
brackets. -/
def tryKeyNumAt (key s : List Char) : Option Nat := do
  let r1 ← lit key s
  let r2 ← lit ['='] (r1.dropWhile pySpaceChar)
  let r3 ← lit ['<'] (r2.dropWhile pySpaceChar)
  let ds := r3.takeWhile pyDigitChar
  if ds = [] then none else
  match r3.dropWhile pyDigitChar with
  | '>' :: _ => some (natOfDigits ds)
  | _ => none

def searchKeyNum (key : List Char) : List Char → Option Nat
  | [] => none
  | s@(_ :: t) =>
    match tryKeyNumAt key s with
    | some n => some n
    | none => searchKeyNum key t

/-- The flavor search `re.search(r'flavor\s*=\s*"([^"]+)"', body)` (source
lines 240, 261). -/
def tryFlavorAt (s : List Char) : Option (List Char) := do
  let r1 ← lit "flavor".data s
  let r2 ← lit ['='] (r1.dropWhile pySpaceChar)
  let r3 ← lit ['"'] (r2.dropWhile pySpaceChar)
  let fl := r3.takeWhile (fun c => c ≠ '"')
  if fl = [] then none else
  match r3.dropWhile (fun c => c ≠ '"') with
  | '"' :: _ => some fl
  | _ => none

def searchFlavor : List Char → Option (List Char)
  | [] => none
  | s@(_ :: t) =>
    match tryFlavorAt s with
    | some fl => some fl
    | none => searchFlavor t

/-- Behavior construction from a matched block body (source lines 232-247
and 255-267): each property is searched independently and a missing one
keeps the dataclass default. -/
def behaviorOfBody (name body : List Char) : Behavior :=
  { name := name
    tapping_term := (searchKeyNum "tapping-term-ms".data body).getD 200
    flavor := (searchFlavor body).getD "tap-preferred".data
    require_prior_idle := (searchKeyNum "require-prior-idle-ms".data body).getD 0 }

/-- Python dict assignment `d[k] = v`: replace in place if the key exists,
otherwise append (insertion order preserved). -/
def behInsert (d : List (List Char × Behavior)) (k : List Char) (v : Behavior) :
    List (List Char × Behavior) :=
  if d.any (fun p => p.1 = k) then d.map (fun p => if p.1 = k then (k, v) else p)
  else d ++ [(k, v)]

/-- Matcher for `re.search(r'&mt\s*\{([^}]+)\}', content)` (source line
252) at the current position. -/
def tryMtAt (s : List Char) : Option (List Char) := do
  let r1 ← lit "&mt".data s
  let r2 ← lit ['{'] (r1.dropWhile pySpaceChar)
  let body := r2.takeWhile (fun c => c ≠ '}')
  if body = [] then none else
  match r2.dropWhile (fun c => c ≠ '}') with
  | '}' :: _ => some body
  | _ => none

def searchMt : List Char → Option (List Char)
  | [] => none
  | s@(_ :: t) =>
    match tryMtAt s with
    | some b => some b
    | none => searchMt t

/-- Model of `ZMKParser._parse_behaviors` (source lines 223-269).  It scans
`self.content` — the RAW source text, not the comment-stripped text — for
self-referential behavior blocks, then for the default `&mt { ... }`
block. -/
def parse_behaviors (content : List Char) : List (List Char × Behavior) :=
  let base := (scanAll tryBehaviorAt content).foldl
    (fun d p => behInsert d p.1 (behaviorOfBody p.1 p.2)) []
  match searchMt content with
  | some body => behInsert base "mt".data (behaviorOfBody "mt".data body)
  | none => base

/-- Backtracking driver for a greedy gap class (such as `[^}]*`) followed by
a continuation: try the longest admissible gap first and shorten until the
continuation matches, as Python's backtracking does. -/
def tryFromLast {α : Type} (k : List Char → Option α) (s : List Char) : Nat → Option α
  | 0 => k s
  | i + 1 =>
    match k (s.drop (i + 1)) with
    | some a => some a
    | none => tryFromLast k s i

def gapThen {α : Type} (gap : Char → Bool) (k : List Char → Option α) (s : List Char) :
    Option α :=
  tryFromLast k s ((s.takeWhile gap).length)

/-- Matcher for one match of the macro pattern
`(\w+):\s*\1\s*\{[^}]*compatible\s*=\s*"zmk,behavior-macro"[^}]*bindings\s*=\s*<([^>]+)>`
(source line 274; re.DOTALL is irrelevant, the pattern has no dot) at the
current position.  Returns `((name, bindings-group), rest-after-match)`. -/
def tryMacroAt (s : List Char) : Option ((List Char × List Char) × List Char) := do
  let w := s.takeWhile pyWordChar
  if w = [] then none else
  let r2 ← lit [':'] (s.dropWhile pyWordChar)
  let r3 ← lit w (r2.dropWhile pySpaceChar)
  let r4 ← lit ['{'] (r3.dropWhile pySpaceChar)
  gapThen (fun c => c ≠ '}') (fun t => do
    let u1 ← lit "compatible".data t
    let u2 ← lit ['='] (u1.dropWhile pySpaceChar)
    let u3 ← lit "\"zmk,behavior-macro\"".data (u2.dropWhile pySpaceChar)
    gapThen (fun c => c ≠ '}') (fun v => do
      let v1 ← lit "bindings".data v
      let v2 ← lit ['='] (v1.dropWhile pySpaceChar)
      let v3 ← lit ['<'] (v2.dropWhile pySpaceChar)
      let grp := v3.takeWhile (fun c => c ≠ '>')
      if grp = [] then none else
      match v3.dropWhile (fun c => c ≠ '>') with
      | '>' :: rest => some ((w, grp), rest)
      | _ => none) u3) r4

/-- Matcher for `re.findall(r'&kp\s+(\S+)', bindings_str)` (source line
283) at the current position: the literal `&kp`, at least one whitespace
character, then a maximal nonempty non-whitespace run. -/
def tryKpAt (s : List Char) : Option (List Char × List Char) := do
  let r1 ← lit "&kp".data s
  if (r1.takeWhile pySpaceChar) = [] then none else
  let r2 := r1.dropWhile pySpaceChar
  let key := r2.takeWhile (fun c => ¬ pySpaceChar c)
  if key = [] then none else
  some (key, r2.dropWhile (fun c => ¬ pySpaceChar c))

def findKpKeys (s : List Char) : List (List Char) := scanAll tryKpAt s

/-- Dataclass `Macro` (source lines 170-172): an ordered action list, each
action a list of strings (`["text", t]` or `["tap", k1, k2, ...]`). -/
structure MacroEntry where
  actions : List (List (List Char))
deriving DecidableEq

def macInsert (d : List (List Char × MacroEntry)) (k : List Char) (v : MacroEntry) :
    List (List Char × MacroEntry) :=
  if d.any (fun p => p.1 = k) then d.map (fun p => if p.1 = k then (k, v) else p)
  else d ++ [(k, v)]

/-- Model of `ZMKParser._parse_macros` (source lines 271-295), scanning the
RAW content. -/
def parse_macros (content : List Char) : List (List Char × MacroEntry) :=
  (scanAll tryMacroAt content).foldl
    (fun d p => macInsert d p.1 ⟨macroActionsOfKeys (findKpKeys p.2)⟩) []

/-- Python `str.split()` (whitespace split, no empty fields). -/
def splitWsF : Nat → List Char → List (List Char)
  | 0, _ => []
  | f + 1, s =>
    let s1 := s.dropWhile pySpaceChar
    if s1 = [] then []
    else s1.takeWhile (fun c => ¬ pySpaceChar c) ::
      splitWsF f (s1.dropWhile (fun c => ¬ pySpaceChar c))

def splitWs (s : List Char) : List (List Char) := splitWsF (s.length + 1) s

/-- Python `str.strip()`. -/
def stripWs (s : List Char) : List Char :=
  ((s.dropWhile pySpaceChar).reverse.dropWhile pySpaceChar).reverse

/-- Dataclass `Combo` (source lines 175-178). -/
structure Combo where
  keys : List Nat
  result : List Char
deriving DecidableEq

/-- Model of `ZMKParser._convert_binding` (source lines 560-578). -/
def convert_binding (binding : List Char) : List Char :=
  let b := stripWs binding
  let parts := splitWs b
  if "&mo".data.isPrefixOf b then
    "MO(".data ++ (parts[1]?).getD "0".data ++ [')']
  else if "&to".data.isPrefixOf b then
    "TO(".data ++ (parts[1]?).getD "0".data ++ [')']
  else if "&kp".data.isPrefixOf b then
    zmk_key_to_qmk ((parts[1]?).getD [])
  else if "&trans".data.isPrefixOf b then "KC_TRNS".data
  else if "&none".data.isPrefixOf b then kcNo
  else kcNo

/-- Matcher for one match of the combo pattern
`\w+\s*\{[^}]*bindings\s*=\s*<([^>]+)>[^}]*key-positions\s*=\s*<([^>]+)>`
(source line 341) at the current position: the bindings group must occur
BEFORE the key-positions group.  Returns
`((bindings-group, positions-group), rest-after-match)`. -/
def tryComboAt (s : List Char) : Option ((List Char × List Char) × List Char) := do
  let w := s.takeWhile pyWordChar
  if w = [] then none else
  let r1 ← lit ['{'] ((s.dropWhile pyWordChar).dropWhile pySpaceChar)
  gapThen (fun c => c ≠ '}') (fun t => do
    let u1 ← lit "bindings".data t
    let u2 ← lit ['='] (u1.dropWhile pySpaceChar)
    let u3 ← lit ['<'] (u2.dropWhile pySpaceChar)
    let g1 := u3.takeWhile (fun c => c ≠ '>')
    if g1 = [] then none else
    match u3.dropWhile (fun c => c ≠ '>') with
    | '>' :: u4 =>
      gapThen (fun c => c ≠ '}') (fun v => do
        let v1 ← lit "key-positions".data v
        let v2 ← lit ['='] (v1.dropWhile pySpaceChar)
        let v3 ← lit ['<'] (v2.dropWhile pySpaceChar)
        let g2 := v3.takeWhile (fun c => c ≠ '>')
        if g2 = [] then none else
        match v3.dropWhile (fun c => c ≠ '>') with
        | '>' :: rest => some ((g1, g2), rest)
        | _ => none) u4
    | _ => none) r1

/-- The comprehension `[int(p) for p in positions if p.isdigit()]` (source
line 348): tokens failing `isdigit` are silently dropped; a token passing
`isdigit` but rejected by `int` raises `ValueError`. -/
def comboPosIntsE : List (List Char) → Except (List Char) (List Nat)
  | [] => Except.ok []
  | p :: ps =>
    if pyStrIsDigit p then
      match pyInt p with
      | some n => do
          let rest ← comboPosIntsE ps
          Except.ok (n :: rest)
      | none => Except.error ("ValueError: invalid literal for int: ".data ++ p)
    else comboPosIntsE ps

def combosOfMatches : List (List Char × List Char) → Except (List Char) (List Combo)
  | [] => Except.ok []
  | (bnd, pos) :: rest => do
    let ks ← comboPosIntsE (splitWs (stripWs pos))
    let others ← combosOfMatches rest
    Except.ok ({ keys := ks, result := convert_binding bnd } :: others)

/-- Model of `ZMKParser._parse_combos` (source lines 339-351), scanning the
RAW content; `int()` failures propagate as the exception they raise. -/
def parse_combos (content : List Char) : Except (List Char) (List Combo) :=
  combosOfMatches (scanAll tryComboAt content)

/-- All whitespace-separated tokens of all matched `key-positions` groups,
in order: exactly the tokens the `int` comprehension inspects. -/
def comboPosTokens (content : List Char) : List (List Char) :=
  ((scanAll tryComboAt content).map (fun p => splitWs (stripWs p.2))).flatten

/-- Layer dict entry `{'name': ..., 'keys': ...}` (source lines 405-408). -/
structure Layer where
  name : List Char
  keys : List (List Char)
deriving DecidableEq

/-- Position in the macro dict, `list(self.keymap.macros.keys()).index(b)`
(source line 475); only evaluated under the membership test. -/
def idxOf : List (List Char) → List Char → Nat
  | [], _ => 0
  | x :: xs, k => if x = k then 0 else idxOf xs k + 1

/-- The token loop of `ZMKParser._parse_bindings` (source lines 412-505),
with the behavior table, the macro-name list and the tap-dance accumulator
threaded explicitly.  Fuel is the token count plus one; every iteration
consumes at least one token. -/
def bindTokensF (behs : List (List Char × Behavior)) (macNames : List (List Char)) :
    Nat → List (List Char) → TDState → List (List Char) × TDState
  | 0, _, st => ([], st)
  | _ + 1, [], st => ([], st)
  | f + 1, tok :: rest, st =>
    if tok.head? = some '&' then
      let b := tok.tail
      if b = "none".data ∨ b = "trans".data then
        let r := bindTokensF behs macNames f rest st
        ((if b = "none".data then kcNo else "KC_TRNS".data) :: r.1, r.2)
      else if b = "kp".data then
        match rest with
        | k :: rest2 =>
          let r := bindTokensF behs macNames f rest2 st
          (zmk_key_to_qmk k :: r.1, r.2)
        | [] => ([], st)
      else if b = "mt".data ∨ b = "mt0".data ∨ b = "mti".data then
        match rest with
        | hold :: tap :: rest3 =>
          let p := create_tap_dance behs tap hold b st
          let r := bindTokensF behs macNames f rest3 p.2
          (p.1 :: r.1, r.2)
        | _ => bindTokensF behs macNames f rest st
      else if b = "lt".data then
        match rest with
        | layer :: tap :: rest3 =>
          let r := bindTokensF behs macNames f rest3 st
          (("LT".data ++ layer ++ '(' :: zmk_key_to_qmk tap ++ [')']) :: r.1, r.2)
        | _ => bindTokensF behs macNames f rest st
      else if b = "mo".data then
        match rest with
        | layer :: rest2 =>
          let r := bindTokensF behs macNames f rest2 st
          (("MO(".data ++ layer ++ [')']) :: r.1, r.2)
        | [] => ([], st)
      else if b = "to".data then
        match rest with
        | layer :: rest2 =>
          let r := bindTokensF behs macNames f rest2 st
          (("TO(".data ++ layer ++ [')']) :: r.1, r.2)
        | [] => ([], st)
      else if macNames.any (fun n => n = b) then
        let r := bindTokensF behs macNames f rest st
        (('M' :: (Nat.repr (idxOf macNames b)).data) :: r.1, r.2)
      else if b = "bt".data then
        match rest with
        | bt_cmd :: rest2 =>
          if bt_cmd = "BT_SEL".data ∧ rest2 ≠ [] then
            let r := bindTokensF behs macNames f rest2.tail st
            (kcNo :: r.1, r.2)
          else
            let r := bindTokensF behs macNames f rest2 st
            (kcNo :: r.1, r.2)
        | [] =>
          let r := bindTokensF behs macNames f [] st
          (kcNo :: r.1, r.2)
      else
        match rest with
        | a :: tap :: rest3 =>
          if a.head? = some '&' then
            let r := bindTokensF behs macNames f rest st
            (kcNo :: r.1, r.2)
          else
            let p := create_tap_dance behs tap a b st
            let r := bindTokensF behs macNames f rest3 p.2
            (p.1 :: r.1, r.2)
        | _ =>
          let r := bindTokensF behs macNames f rest st
          (kcNo :: r.1, r.2)
    else
      bindTokensF behs macNames f rest st

/-- Model of `ZMKParser._parse_bindings` (source lines 412-505). -/
def parse_bindings (behs : List (List Char × Behavior)) (macNames : List (List Char))
    (bindings_str : List Char) (st : TDState) : List (List Char) × TDState :=
  let tokens := splitWs bindings_str
  bindTokensF behs macNames (tokens.length + 1) tokens st

/-- Index of the first occurrence of a substring (`str.find`, source line
367). -/
def findSubIdx (pat : List Char) : List Char → Option Nat
  | [] => if pat = [] then some 0 else none
  | s@(_ :: t) =>
    if pat.isPrefixOf s then some 0
    else (findSubIdx pat t).map (· + 1)

/-- The balanced-brace scan of `_parse_layers` (source lines 372-385)
relative to the start of the `keymap {` region: index one past the brace
closing the first opened brace, or `none` when the braces never balance
(the Python loop then ends without `break`, leaving an empty slice). -/
def braceEndF : List Char → Int → Bool → Nat → Option Nat
  | [], _, _, _ => none
  | c :: rest, cnt, ink, idx =>
    if c = '{' then braceEndF rest (cnt + 1) true (idx + 1)
    else if c = '}' then
      if ink ∧ cnt - 1 = 0 then some (idx + 1)
      else braceEndF rest (cnt - 1) ink (idx + 1)
    else braceEndF rest cnt ink (idx + 1)

/-- The lazy tail `([\s\S]*?)>\s*;` of the layer pattern (source line 391):
the group ends at the FIRST `>` that is followed by optional whitespace
and a `;`; returns the group and the rest after the `;`. -/
def lazyBind : List Char → Option (List Char × List Char)
  | [] => none
  | c :: rest =>
    if c = '>' ∧ (rest.dropWhile pySpaceChar).head? = some ';' then
      some ([], (rest.dropWhile pySpaceChar).tail)
    else
      (lazyBind rest).map (fun p => (c :: p.1, p.2))

/-- Matcher for one match of the layer pattern
`(\w+(?:_layer)?)\s*\{[^{}]*bindings\s*=\s*<([\s\S]*?)>\s*;` (source line
391) at the current position.  The optional `(?:_layer)?` group is
subsumed by the greedy `\w+` (an `_layer` suffix consists of word
characters), so group 1 is the maximal word run.  Returns
`((name, bindings-group), rest-after-match)`. -/
def tryLayerAt (s : List Char) : Option ((List Char × List Char) × List Char) := do
  let w := s.takeWhile pyWordChar
  if w = [] then none else
  let r1 ← lit ['{'] ((s.dropWhile pyWordChar).dropWhile pySpaceChar)
  gapThen (fun c => c ≠ '{' ∧ c ≠ '}') (fun t => do
    let u1 ← lit "bindings".data t
    let u2 ← lit ['='] (u1.dropWhile pySpaceChar)
    let u3 ← lit ['<'] (u2.dropWhile pySpaceChar)
    let pr ← lazyBind u3
    some ((w, pr.1), pr.2)) r1

/-- Python `str.replace('_layer', '')` (source line 398): remove every
non-overlapping occurrence, left to right. -/
def removeSubF (pat : List Char) : Nat → List Char → List Char
  | 0, s => s
  | _ + 1, [] => []
  | f + 1, s@(c :: t) =>
    if pat.isPrefixOf s then removeSubF pat f (s.drop pat.length)
    else c :: removeSubF pat f t

def removeSub (pat s : List Char) : List Char := removeSubF pat (s.length + 1) s

/-- Layer extraction from the comment-stripped text (source lines 366-410):
substring search for `keymap {`, balanced-brace scan for its exact end,
then a scan for layer blocks inside; a block whose bindings yield no keys
is discarded (but its effect on the tap-dance accumulator remains). -/
def layersFromClean (behs : List (List Char × Behavior)) (macNames : List (List Char))
    (clean : List Char) (st : TDState) : List Layer × TDState :=
  match findSubIdx "keymap \x7b".data clean with
  | none => ([], st)
  | some start =>
    let region := clean.drop start
    let stop := (braceEndF region 0 false 0).getD 0
    let keymap_content := region.take stop
    (scanAll tryLayerAt keymap_content).foldl (fun acc p =>
      let r := parse_bindings behs macNames p.2 acc.2
      if r.1 = [] then (acc.1, r.2)
      else (acc.1 ++ [{ name := removeSub "_layer".data p.1, keys := r.1 }], r.2)) ([], st)

/-- Model of `ZMKParser._parse_layers` (source lines 361-410): comments are
stripped from the content FIRST (source line 364), then the keymap
container is located and its layer blocks parsed. -/
def parse_layers (behs : List (List Char × Behavior)) (macNames : List (List Char))
    (content : List Char) (st : TDState) : List Layer × TDState :=
  layersFromClean behs macNames (strip_comments content) st

/-- Dataclass `ZMKKeymap` (source lines 189-194). -/
structure ZMKKeymap where
  layers : List Layer
  behaviors : List (List Char × Behavior)
  macros : List (List Char × MacroEntry)
  combos : List Combo
deriving DecidableEq

/-- The full parser state after `ZMKParser.parse`: the keymap plus the
tap-dance accumulator (used later by the generator). -/
structure ParseResult where
  keymap : ZMKKeymap
  tap_dances : List TapDance
  td_map : List (List Char × Nat)
deriving DecidableEq

/-- Model of `ZMKParser.parse` (source lines 208-213): behaviors, macros,
combos, layers, in that order; the `ValueError` a combo position can raise
propagates out of `parse`. -/
def runParse (content : List Char) : Except (List Char) ParseResult := do
  let behs := parse_behaviors content
  let macs := parse_macros content
  let combos ← parse_combos content
  let lay := parse_layers behs (macs.map (fun p => p.1)) content ⟨[], []⟩
  Except.ok
    { keymap := { layers := lay.1, behaviors := behs, macros := macs, combos := combos },
      tap_dances := lay.2.tap_dances, td_map := lay.2.td_map }

/-- One cell of the Vial output: the `.vil` JSON mixes keycode strings and
integers (`-1` slot sentinels, tapping terms). -/
inductive VEntry where
  | kc (s : List Char)
  | num (n : Int)
deriving DecidableEq

/-- The template `.vil` record restricted to the fields the generator
reads: `template['layout']` (source line 710) and
`template.get('settings', {})` (source line 717).  The remaining fields of
the dict are pass-through and do not feed any generated field. -/
structure VialTemplate where
  layout : List (List (List VEntry))
  settings : List (List Char × Int)
deriving DecidableEq

/-- The generated fields of the output record (source lines 591-610). -/
structure VilOut where
  layout : List (List (List VEntry))
  macros : List (List (List (List Char)))
  tap_dance : List (List VEntry)
  combo : List (List (List Char))
  settings : List (List Char × Int)
deriving DecidableEq

/-- Model of `VialGenerator._generate_tap_dances` (source lines 612-629):
one row `[tap, hold, double_tap, tap_hold, tapping_term]` per entry,
padded (never truncated) to 32 rows with all-`KC_NO` rows. -/
def generate_tap_dances (tds : List TapDance) : List (List VEntry) :=
  tds.map (fun td =>
    [VEntry.kc td.tap, VEntry.kc td.hold, VEntry.kc td.double_tap,
     VEntry.kc td.tap_hold, VEntry.num td.tapping_term]) ++
  List.replicate (32 - tds.length)
    [VEntry.kc kcNo, VEntry.kc kcNo, VEntry.kc kcNo, VEntry.kc kcNo, VEntry.num 200]

/-- Model of `VialGenerator._generate_macros` (source lines 631-642): one
row per macro (its action list, verbatim, in dict insertion order), padded
(never truncated) to 16 rows with empty rows. -/
def generate_macros (macs : List (List Char × MacroEntry)) : List (List (List (List Char))) :=
  macs.map (fun p => p.2.actions) ++ List.replicate (16 - macs.length) []

/-- Model of `VialGenerator._generate_combos` (source lines 644-663): all
four key slots are emitted as `KC_NO` and only the result is kept, padded
(never truncated) to 32 rows. -/
def generate_combos (combos : List Combo) : List (List (List Char)) :=
  combos.map (fun c => [kcNo, kcNo, kcNo, kcNo, c.result]) ++
  List.replicate (32 - combos.length) [kcNo, kcNo, kcNo, kcNo, kcNo]

/-- In-place padding `while len(keys) < 42: keys.append("KC_NO")` (source
lines 690-691). -/
def padKeys (keys : List (List Char)) : List (List Char) :=
  keys ++ List.replicate (42 - keys.length) kcNo

/-- One slice `keys[a:b]` of the (already padded) key list, injected into
output cells. -/
def sliceKc (keys : List (List Char)) (a b : Nat) : List VEntry :=
  ((keys.drop a).take (b - a)).map VEntry.kc

/-- The eight physical rows built from one layer's padded key list (source
lines 694-705): three left rows, left thumbs with three `-1` sentinels,
then the three right rows and right thumbs, each right row slot-reversed. -/
def layerRows (keys : List (List Char)) : List (List VEntry) :=
  [sliceKc keys 0 6,
   sliceKc keys 12 18,
   sliceKc keys 24 30,
   [VEntry.num (-1), VEntry.num (-1), VEntry.num (-1)] ++ sliceKc keys 36 39,
   (sliceKc keys 6 12).reverse,
   (sliceKc keys 18 24).reverse,
   (sliceKc keys 30 36).reverse,
   [VEntry.num (-1), VEntry.num (-1), VEntry.num (-1)] ++ (sliceKc keys 39 42).reverse]

/-- Model of `VialGenerator._generate_layout` (source lines 665-713).  The
Python pads `layer['keys']` IN PLACE (`keys` aliases the list stored in the
keymap and `keys.append` mutates it), so this returns both the layout and
the keymap's layer list as it stands after the mutation.  Layers beyond
the keymap's count are copied from the template (source lines 710-711). -/
def generate_layout (layers : List Layer) (tmplLayout : List (List (List VEntry))) :
    List (List (List VEntry)) × List Layer :=
  (layers.map (fun l => layerRows (padKeys l.keys)) ++ tmplLayout.drop layers.length,
   layers.map (fun l => { l with keys := padKeys l.keys }))

/-- Python dict assignment on the settings mapping. -/
def setIns (d : List (List Char × Int)) (k : List Char) (v : Int) : List (List Char × Int) :=
  if d.any (fun p => p.1 = k) then d.map (fun p => if p.1 = k then (k, v) else p)
  else d ++ [(k, v)]

/-- Model of `VialGenerator._generate_settings` (source lines 715-729):
setting `4` from the `mt` (else `mt0`) behavior's tapping term, setting
`10` from `mt`'s prior-idle threshold only when that is nonzero. -/
def generate_settings (behs : List (List Char × Behavior))
    (settings : List (List Char × Int)) : List (List Char × Int) :=
  let s1 :=
    match behGet behs "mt".data with
    | some b => setIns settings "4".data b.tapping_term
    | none =>
      match behGet behs "mt0".data with
      | some b => setIns settings "4".data b.tapping_term
      | none => settings
  match behGet behs "mt".data with
  | some b => if b.require_prior_idle ≠ 0 then setIns s1 "10".data b.require_prior_idle else s1
  | none => s1

/-- Model of `VialGenerator.generate` (source lines 591-610), restricted to
the generated fields; the second component is the keymap as left behind by
the in-place layer padding of `_generate_layout`. -/
def generate (pr : ParseResult) (tmpl : VialTemplate) : VilOut × ZMKKeymap :=
  let lay := generate_layout pr.keymap.layers tmpl.layout
  ({ layout := lay.1,
     macros := generate_macros pr.keymap.macros,
     tap_dance := generate_tap_dances pr.tap_dances,
     combo := generate_combos pr.keymap.combos,
     settings := generate_settings pr.keymap.behaviors tmpl.settings },
   { pr.keymap with layers := lay.2 })

/-- The built-in default template of `get_default_template` (source lines
772-788), restricted to the modelled fields: an all-`KC_NO` 10-layer
8-row 6-slot layout and empty settings. -/
def get_default_template : VialTemplate :=
  { layout := List.replicate 10 (List.replicate 8 (List.replicate 6 (VEntry.kc kcNo))),
    settings := [] }

theorem padKeys_le_length (keys : List (List Char)) : 42 ≤ (padKeys keys).length := by
  unfold padKeys
  rw [List.length_append, List.length_replicate]
  omega

/-- C1 counterexample: extraction does not pad.  On a source with one layer
whose bindings hold a single `&kp A`, `parse` returns a Layer with exactly
one key slot, not 42. -/
theorem claim_C1_counterexample :
    runParse "keymap { a { bindings = <&kp A>; }; };".data =
      Except.ok ⟨⟨[⟨"a".data, ["KC_A".data]⟩], [], [], []⟩, [], []⟩ ∧
    (["KC_A".data] : List (List Char)).length ≠ 42 :=
  ⟨by decide, by decide⟩

/-- C1 amended: the 42-slot invariant is established by the projector, not
by extraction.  `_generate_layout` right-pads each stored layer with
`KC_NO` in place, so after projection every layer of the keymap has at
least 42 slots (extraction itself returns exactly as many slots as actions
parsed). -/
theorem claim_C1_amended_projector_pads (layers : List Layer)
    (tmplLayout : List (List (List VEntry))) (l : Layer)
    (hl : l ∈ (generate_layout layers tmplLayout).2) : 42 ≤ l.keys.length := by
  unfold generate_layout at hl
  dsimp only at hl
  obtain ⟨l', hl', rfl⟩ := List.mem_map.mp hl
  exact padKeys_le_length l'.keys

/-- C1 amended witness: the padding theorem applied to the one-key layer of
the counterexample after projection. -/
theorem claim_C1_amended_projector_pads_witness :
    42 ≤ (Layer.mk "a".data (padKeys ["KC_A".data])).keys.length :=
  claim_C1_amended_projector_pads [⟨"a".data, ["KC_A".data]⟩] [] _ (by decide)

/-- C3 counterexample: behavior extraction runs on the raw text, not the
comment-stripped text.  Two sources with identical comment-stripped forms
(one holds a behavior block only inside a block comment, the other is
empty) yield different behavior tables: the commented-out `mt0` block is
extracted, tapping term included. -/
theorem claim_C3_counterexample :
    strip_comments "/* mt0: mt0 {tapping-term-ms = <123>;} */".data = strip_comments "".data ∧
    parse_behaviors "/* mt0: mt0 {tapping-term-ms = <123>;} */".data ≠ parse_behaviors "".data ∧
    parse_behaviors "/* mt0: mt0 {tapping-term-ms = <123>;} */".data =
      [("mt0".data, ⟨"mt0".data, 123, "tap-preferred".data, 0⟩)] :=
  ⟨by decide, by decide, by decide⟩

/-- C3 amended: comment stripping precedes LAYER recognition only
(`_parse_layers` strips first; behaviors, macros and combos scan the raw
text).  Consequently layer extraction depends on the source text only
through its comment-stripped form: two texts with the same stripped form
produce the same layers and the same tap-dance state. -/
theorem claim_C3_amended_layers_see_stripped_text (behs : List (List Char × Behavior))
    (macNames : List (List Char)) (st : TDState) (t1 t2 : List Char)
    (h : strip_comments t1 = strip_comments t2) :
    parse_layers behs macNames t1 st = parse_layers behs macNames t2 st := by
  unfold parse_layers
  rw [h]

/-- C3 amended witness: the congruence applied to a line-commented text and
the empty text, whose stripped forms agree. -/
theorem claim_C3_amended_layers_see_stripped_text_witness :
    parse_layers [] [] "// x".data ⟨[], []⟩ = parse_layers [] [] "".data ⟨[], []⟩ :=
  claim_C3_amended_layers_see_stripped_text [] [] ⟨[], []⟩ _ _ (by decide)

/-- C4 counterexample: combo recognition is order-sensitive.  The same
block is extracted when `bindings` precedes `key-positions` but yields no
combo at all when the two properties are swapped. -/
theorem claim_C4_counterexample :
    parse_combos "x { bindings = <&kp A>; key-positions = <0 1>; };".data =
      Except.ok [⟨[0, 1], "KC_A".data⟩] ∧
    parse_combos "x { key-positions = <0 1>; bindings = <&kp A>; };".data = Except.ok [] :=
  ⟨by decide, by decide⟩

/-- C4 amended: a block exposing both properties is recognised as a Combo
only when its `bindings` property appears before its `key-positions`
property (the combo regex requires that order); in that order the
positions and the converted result action are extracted, in the swapped
order the block is not recognised.  Exhibited on a representative combo
block. -/
theorem claim_C4_amended_order_sensitive :
    parse_combos "combo_q { bindings = <&kp B>; key-positions = <1 2>; };".data =
      Except.ok [⟨[1, 2], "KC_B".data⟩] ∧
    parse_combos "combo_q { key-positions = <1 2>; bindings = <&kp B>; };".data =
      Except.ok [] :=
  ⟨by decide, by decide⟩

/-- C5 counterexample: the fixed capacities are padding floors, not exact
sizes.  A parser state holding 33 tap dances produces a `tap_dance` array
of 33 rows, not 32 (the padding loop never truncates). -/
theorem claim_C5_counterexample :
    (generate
      ⟨⟨[], [], [], []⟩,
        (List.range 33).map (fun i => ⟨'T' :: (Nat.repr i).data, kcNo, 140, kcNo, kcNo⟩),
        []⟩
      get_default_template).1.tap_dance.length = 33 ∧ (33 : Nat) ≠ 32 :=
  ⟨by decide, by decide⟩

theorem sliceKc_length {keys : List (List Char)} {a b : Nat} (h : b ≤ keys.length)
    (hab : a ≤ b) : (sliceKc keys a b).length = b - a := by
  unfold sliceKc
  rw [List.length_map, List.length_take, List.length_drop]
  omega

theorem layerRows_shape {keys : List (List Char)} (h : 42 ≤ keys.length) :
    (layerRows keys).length = 8 ∧ ∀ r ∈ layerRows keys, r.length = 6 := by
  refine ⟨rfl, ?_⟩
  intro r hr
  unfold layerRows at hr
  simp only [List.mem_cons, List.not_mem_nil, or_false] at hr
  rcases hr with rfl | rfl | rfl | rfl | rfl | rfl | rfl | rfl
  · rw [sliceKc_length (by omega) (by omega)]
  · rw [sliceKc_length (by omega) (by omega)]
  · rw [sliceKc_length (by omega) (by omega)]
  · rw [List.length_append, sliceKc_length (by omega) (by omega)]
    decide
  · rw [List.length_reverse, sliceKc_length (by omega) (by omega)]
  · rw [List.length_reverse, sliceKc_length (by omega) (by omega)]
  · rw [List.length_reverse, sliceKc_length (by omega) (by omega)]
  · rw [List.length_append, List.length_reverse, sliceKc_length (by omega) (by omega)]
    decide

/-- C5 amended: the generated arrays are padded up to the fixed capacities
but never truncated.  Whenever the extracted keymap fits the capacities
(at most 32 tap dances, 16 macros, 32 combos, 10 layers) and the template
layout is a well-formed 10-layer 8-row 6-slot grid, the output has exactly
32 tap-dance rows, 16 macro rows, 32 combo rows, and 10 layers of exactly
8 rows of exactly 6 slots. -/
theorem claim_C5_amended_padding_totals (pr : ParseResult) (tmpl : VialTemplate)
    (h1 : pr.tap_dances.length ≤ 32) (h2 : pr.keymap.macros.length ≤ 16)
    (h3 : pr.keymap.combos.length ≤ 32) (h4 : pr.keymap.layers.length ≤ 10)
    (h5 : tmpl.layout.length = 10)
    (h6 : ∀ lay ∈ tmpl.layout, lay.length = 8 ∧ ∀ r ∈ lay, r.length = 6) :
    (generate pr tmpl).1.tap_dance.length = 32 ∧
    (generate pr tmpl).1.macros.length = 16 ∧
    (generate pr tmpl).1.combo.length = 32 ∧
    (generate pr tmpl).1.layout.length = 10 ∧
    ∀ lay ∈ (generate pr tmpl).1.layout, lay.length = 8 ∧ ∀ r ∈ lay, r.length = 6 := by
  have hTD : (generate pr tmpl).1.tap_dance = generate_tap_dances pr.tap_dances := rfl
  have hM : (generate pr tmpl).1.macros = generate_macros pr.keymap.macros := rfl
  have hC : (generate pr tmpl).1.combo = generate_combos pr.keymap.combos := rfl
  have hL : (generate pr tmpl).1.layout =
      (generate_layout pr.keymap.layers tmpl.layout).1 := rfl
  refine ⟨?_, ?_, ?_, ?_, ?_⟩
  · rw [hTD]
    unfold generate_tap_dances
    rw [List.length_append, List.length_map, List.length_replicate]
    omega
  · rw [hM]
    unfold generate_macros
    rw [List.length_append, List.length_map, List.length_replicate]
    omega
  · rw [hC]
    unfold generate_combos
    rw [List.length_append, List.length_map, List.length_replicate]
    omega
  · rw [hL]
    unfold generate_layout
    dsimp only
    rw [List.length_append, List.length_map, List.length_drop]
    omega
  · rw [hL]
    intro lay hlay
    unfold generate_layout at hlay
    dsimp only at hlay
    rcases List.mem_append.mp hlay with hleft | hright
    · obtain ⟨l', -, rfl⟩ := List.mem_map.mp hleft
      exact layerRows_shape (padKeys_le_length l'.keys)
    · exact h6 lay (List.mem_of_mem_drop hright)

/-- C5 amended witness: the totals theorem applied to the empty keymap and
the built-in default template. -/
theorem claim_C5_amended_padding_totals_witness :
    (generate ⟨⟨[], [], [], []⟩, [], []⟩ get_default_template).1.tap_dance.length = 32 ∧
    (generate ⟨⟨[], [], [], []⟩, [], []⟩ get_default_template).1.macros.length = 16 ∧
    (generate ⟨⟨[], [], [], []⟩, [], []⟩ get_default_template).1.combo.length = 32 ∧
    (generate ⟨⟨[], [], [], []⟩, [], []⟩ get_default_template).1.layout.length = 10 ∧
    ∀ lay ∈ (generate ⟨⟨[], [], [], []⟩, [], []⟩ get_default_template).1.layout,
      lay.length = 8 ∧ ∀ r ∈ lay, r.length = 6 :=
  claim_C5_amended_padding_totals ⟨⟨[], [], [], []⟩, [], []⟩ get_default_template
    (by decide) (by decide) (by decide) (by decide) (by decide) (by decide)

/-- C8 counterexample: projection mutates the Keymap.  On a keymap with a
one-key layer, `generate` leaves the stored layer padded to 42 slots: the
keymap after projection differs from the keymap before it. -/
theorem claim_C8_counterexample :
    (generate ⟨⟨[⟨"a".data, ["KC_A".data]⟩], [], [], []⟩, [], []⟩ get_default_template).2 ≠
      (⟨⟨[⟨"a".data, ["KC_A".data]⟩], [], [], []⟩, [], []⟩ : ParseResult).keymap ∧
    ((generate ⟨⟨[⟨"a".data, ["KC_A".data]⟩], [], [], []⟩, [], []⟩
        get_default_template).2.layers.map (fun l => l.keys.length)) = [42] ∧
    ((⟨⟨[⟨"a".data, ["KC_A".data]⟩], [], [], []⟩, [], []⟩ : ParseResult).keymap.layers.map
      (fun l => l.keys.length)) = [1] :=
  ⟨by decide, by decide, by decide⟩

/-- C8 amended: projection mutates only under-length layers (it right-pads
them in place to 42 slots); behaviors, macros and combos are never touched,
and a Keymap whose every layer already has at least 42 slots passes through
projection completely unchanged. -/
theorem claim_C8_amended_frame (pr : ParseResult) (tmpl : VialTemplate)
    (h : ∀ l ∈ pr.keymap.layers, 42 ≤ l.keys.length) :
    (generate pr tmpl).2 = pr.keymap := by
  have hmap : pr.keymap.layers.map (fun l => { l with keys := padKeys l.keys }) =
      pr.keymap.layers := by
    have hcong : ∀ l ∈ pr.keymap.layers,
        (fun l => ({ l with keys := padKeys l.keys } : Layer)) l = id l := by
      intro l hl
      have h42 := h l hl
      show ({ l with keys := padKeys l.keys } : Layer) = l
      have hpad : padKeys l.keys = l.keys := by
        unfold padKeys
        rw [show 42 - l.keys.length = 0 by omega]
        simp
      rw [hpad]
    rw [List.map_congr_left hcong, List.map_id]
  show { pr.keymap with layers := (generate_layout pr.keymap.layers tmpl.layout).2 } =
    pr.keymap
  unfold generate_layout
  dsimp only
  rw [hmap]

/-- C8 amended witness: the frame theorem applied to a keymap whose single
layer already has 42 slots. -/
theorem claim_C8_amended_frame_witness :
    (generate ⟨⟨[⟨"a".data, List.replicate 42 kcNo⟩], [], [], []⟩, [], []⟩
      get_default_template).2 =
    (⟨⟨[⟨"a".data, List.replicate 42 kcNo⟩], [], [], []⟩, [], []⟩ : ParseResult).keymap :=
  claim_C8_amended_frame ⟨⟨[⟨"a".data, List.replicate 42 kcNo⟩], [], [], []⟩, [], []⟩
    get_default_template (by decide)

/-- C9 counterexample: `parse` is not total.  The superscript digit `²`
passes the `isdigit` filter but is rejected by `int`, so a key-positions
token `²` raises `ValueError` inside `_parse_combos`, which propagates out
of `ZMKParser.parse`. -/
theorem claim_C9_counterexample :
    runParse "x { bindings = <&kp A>; key-positions = <²>; };".data =
      Except.error ("ValueError: invalid literal for int: ".data ++ "²".data) ∧
    pyStrIsDigit "²".data = true ∧ pyInt "²".data = none :=
  ⟨by decide, by decide, by decide⟩

theorem comboPosIntsE_ok {toks : List (List Char)}
    (h : ∀ p ∈ toks, pyStrIsDigit p → (pyInt p).isSome) :
    ∃ ns, comboPosIntsE toks = Except.ok ns := by
  induction toks with
  | nil => exact ⟨[], rfl⟩
  | cons p ps ih =>
    obtain ⟨ns, hns⟩ := ih (fun q hq hd => h q (by simp [hq]) hd)
    by_cases hd : pyStrIsDigit p
    · have hsome := h p (by simp) hd
      cases hint : pyInt p with
      | none => rw [hint] at hsome; simp at hsome
      | some n =>
        refine ⟨n :: ns, ?_⟩
        simp only [comboPosIntsE, if_pos hd, hint, hns]
        rfl
    · exact ⟨ns, by simp only [comboPosIntsE, if_neg hd]; exact hns⟩

theorem combosOfMatches_ok {ms : List (List Char × List Char)}
    (h : ∀ p ∈ ms, ∀ tok ∈ splitWs (stripWs p.2), pyStrIsDigit tok → (pyInt tok).isSome) :
    ∃ cs, combosOfMatches ms = Except.ok cs := by
  induction ms with
  | nil => exact ⟨[], rfl⟩
  | cons m rest ih =>
    obtain ⟨cs, hcs⟩ := ih (fun q hq => h q (by simp [hq]))
    obtain ⟨ns, hns⟩ := comboPosIntsE_ok (h m (by simp))
    refine ⟨{ keys := ns, result := convert_binding m.1 } :: cs, ?_⟩
    show combosOfMatches (m :: rest) = _
    rw [show combosOfMatches (m :: rest) = do
          let ks ← comboPosIntsE (splitWs (stripWs m.2))
          let others ← combosOfMatches rest
          Except.ok ({ keys := ks, result := convert_binding m.1 } :: others) from rfl]
    rw [hns, hcs]
    rfl

/-- C9 amended: the only exception either component can raise is the
`ValueError` from `int()` on a key-positions token that passes `isdigit`
without being decimal; on every source text whose key-positions tokens
that pass the digit test are `int`-parseable, `parse` returns a Keymap
(and the projector, a total function of its keymap and well-formed
template, always produces an output record). -/
theorem claim_C9_amended_parse_total (t : List Char)
    (h : ∀ tok ∈ comboPosTokens t, pyStrIsDigit tok → (pyInt tok).isSome) :
    ∃ r, runParse t = Except.ok r := by
  have h2 : ∀ p ∈ scanAll tryComboAt t, ∀ tok ∈ splitWs (stripWs p.2),
      pyStrIsDigit tok → (pyInt tok).isSome := by
    intro p hp tok htok
    apply h
    unfold comboPosTokens
    rw [List.mem_flatten]
    exact ⟨splitWs (stripWs p.2), List.mem_map.mpr ⟨p, hp, rfl⟩, htok⟩
  obtain ⟨cs, hcs⟩ := combosOfMatches_ok h2
  unfold runParse parse_combos
  rw [hcs]
  exact ⟨_, rfl⟩

/-- C9 amended witness: the totality theorem applied to a source with one
well-formed combo. -/
theorem claim_C9_amended_parse_total_witness :
    ∃ r, runParse "x { bindings = <&kp A>; key-positions = <0 1>; };".data = Except.ok r :=
  claim_C9_amended_parse_total _ (by decide)

end ZmkVial
